import Mathlib

/-!
Verification development for the Query Management Agent
(`backend/agents/ticket_agent.py`).

The Python module is shallowly embedded: strings are `List Char`, Python
string methods are the executable functions below, the external
collaborators (record store, directory, mailer, document generator,
reasoning service) are oracles packed into an `Env`/turn script, and the
per-ticket processing produces an explicit trace of side effects.
-/

namespace QMA

/-- Strings of the embedded program are lists of characters. -/
abbrev Str := List Char

/-- Python `str.strip` / `\s` whitespace over the ASCII range:
space, tab, newline, carriage return, vertical tab, form feed. -/
def isPyWs (c : Char) : Bool :=
  c == ' ' || c == '\t' || c == '\n' || c == '\r' ||
    c == Char.ofNat 11 || c == Char.ofNat 12

/-- Python `str.lower` (ASCII model, `Char.toLower` pointwise). -/
def pyLower (s : Str) : Str := s.map Char.toLower

/-- Python `str.upper` (ASCII model, `Char.toUpper` pointwise). -/
def pyUpper (s : Str) : Str := s.map Char.toUpper

/-- Python `str.strip()`: drop leading and trailing whitespace. -/
def pyStrip (s : Str) : Str :=
  ((s.dropWhile isPyWs).reverse.dropWhile isPyWs).reverse

/-- Python substring test `needle in hay`. -/
def pyIn (needle : Str) : Str → Bool
  | [] => needle.isEmpty
  | c :: t => needle.isPrefixOf (c :: t) || pyIn needle t

/-- Python `str.replace(old, new)` (non-overlapping, left to right), with
explicit fuel so that the definition is structural and kernel-reducible.
The fuel is instantiated with the length of the subject string, which is
always sufficient because every step consumes at least one character. -/
def pyReplaceFuel (old new : Str) : Nat → Str → Str
  | _, [] => []
  | 0, s => s
  | fuel + 1, c :: rest =>
    if old ≠ [] ∧ old.isPrefixOf (c :: rest) then
      new ++ pyReplaceFuel old new fuel (rest.drop (old.length - 1))
    else
      c :: pyReplaceFuel old new fuel rest

/-- Python `str.replace(old, new)`. -/
def pyReplace (old new s : Str) : Str := pyReplaceFuel old new s.length s

/-- Python `str.isdigit()` (ASCII model): nonempty and all digits. -/
def pyIsDigit (s : Str) : Bool := !s.isEmpty && s.all Char.isDigit

/-- The branch structure on the cleaned value at the end of
`normalize_invoice_reference`: dash insertion after a bare `INV` head,
`INV-` prefix for purely numeric values, identity otherwise. -/
def normalizeCore (c2 : Str) : Option Str :=
  if "INV".toList.isPrefixOf c2 ∧ ¬ ("INV-".toList.isPrefixOf c2) then
    if (c2.drop 3).dropWhile (fun c => c = '-') = [] then some "INV".toList
    else some ("INV-".toList ++ (c2.drop 3).dropWhile (fun c => c = '-'))
  else if pyIsDigit c2 then
    some ("INV-".toList ++ c2)
  else
    some c2

/-- Embedding of `normalize_invoice_reference` (ticket_agent.py, lines
112-125).  `none` models Python `None`; the two truthiness checks
(`if not value`, `if not cleaned`) are the emptiness tests. -/
def normalize_invoice_reference (value : Option Str) : Option Str :=
  match value with
  | none => none
  | some v =>
    if v = [] then none
    else if pyUpper (pyStrip v) = [] then none
    else
      normalizeCore
        (((pyReplace "INVOICE".toList "INV".toList (pyUpper (pyStrip v))).filter
            (fun c => c ≠ ' ')).filter (fun c => c ≠ '#'))

/-! ### The two invoice regular expressions

`INVOICE_REGEX  = \bINV[\s\-#]?[A-Z0-9]+\b`           (IGNORECASE)
`GENERIC_INVOICE_REGEX = \bInvoice(?:\s+(?:Number|No\.|#))?\s*[:#-]?\s*([A-Z0-9-]+)\b` (IGNORECASE)

Both are embedded as deterministic scanners that reproduce Python's
backtracking `finditer` semantics for these specific patterns (leftmost,
non-overlapping matches; greedy quantifiers with backtracking; `\b` between
a word character `[A-Za-z0-9_]` and a non-word character or string edge). -/

/-- `\w` word characters (ASCII model of Python `re`). -/
def isWordChar (c : Char) : Bool := c.isAlpha || c.isDigit || c == '_'

/-- The character class `[A-Z0-9]` under `IGNORECASE`. -/
def invAlnum (c : Char) : Bool := c.isAlpha || c.isDigit

/-- The capture class `[A-Z0-9-]` under `IGNORECASE`. -/
def capClass (c : Char) : Bool := invAlnum c || c == '-'

/-- The optional-separator class `[\s\-#]` of `INVOICE_REGEX`. -/
def sepClass (c : Char) : Bool := isPyWs c || c == '-' || c == '#'

/-- The separator class `[:#-]` of `GENERIC_INVOICE_REGEX`. -/
def sep2Class (c : Char) : Bool := c == ':' || c == '#' || c == '-'

/-- Case-insensitive literal match at the head of `s` (`pat` upper case). -/
def ciStarts (pat s : Str) : Bool := pat.isPrefixOf (pyUpper s)

/-- `\b` holds before the scan position when the previous character (if
any) is not a word character; the matched literal starts with a word
character in both patterns. -/
def bdryBefore : Option Char → Bool
  | none => true
  | some p => !(isWordChar p)

/-- After `INV` and after the optional separator, `[A-Z0-9]+\b` succeeds
only for the maximal alphanumeric run followed by a non-word character or
the string end (shortening the greedy run never restores the boundary). -/
def okAfterRun : Str → Bool
  | [] => true
  | c :: _ => !(isWordChar c)

/-- Match of the part of `INVOICE_REGEX` that follows the literal `INV`:
`[\s\-#]?[A-Z0-9]+\b`.  Returns the number of consumed characters.  When
the optional separator is present but the rest fails, dropping the
separator cannot succeed either (a separator is never alphanumeric). -/
def invTailLen : Str → Option Nat
  | [] => none
  | d :: rest =>
    if sepClass d then
      let r := rest.takeWhile invAlnum
      if r ≠ [] ∧ okAfterRun (rest.drop r.length) then some (1 + r.length) else none
    else
      let r := (d :: rest).takeWhile invAlnum
      if r ≠ [] ∧ okAfterRun ((d :: rest).drop r.length) then some r.length else none

/-- `INVOICE_REGEX.finditer`: left-to-right non-overlapping scan, fuelled
by the length of the subject (every step consumes at least one
character); `prev` is the character before the scan position. -/
def invFinditer : Nat → Option Char → Str → List Str
  | 0, _, _ => []
  | _, _, [] => []
  | fuel + 1, prev, c :: rest =>
    if bdryBefore prev ∧ ciStarts "INV".toList (c :: rest) then
      match invTailLen ((c :: rest).drop 3) with
      | some k =>
        let m := (c :: rest).take (3 + k)
        m :: invFinditer fuel m.getLast? ((c :: rest).drop (3 + k))
      | none => invFinditer fuel (some c) rest
    else invFinditer fuel (some c) rest

/-- Greedy `([A-Z0-9-]+)\b` on the reversed candidate run: backtracking
shortens the run from the right until the trailing word boundary holds.
`next` is the character immediately after the current run end. -/
def capShrinkRev : Str → Option Char → Option Str
  | [], _ => none
  | last :: revRest, next =>
    if (isWordChar last) != (match next with | none => false | some n => isWordChar n) then
      some (last :: revRest)
    else capShrinkRev revRest (some last)

/-- `([A-Z0-9-]+)\b` at the head of `u`: the capture and its length. -/
def capAt (u : Str) : Option (Str × Nat) :=
  let r := u.takeWhile capClass
  match capShrinkRev r.reverse ((u.drop r.length).head?) with
  | some rev => some (rev.reverse, rev.length)
  | none => none

/-- The tail `\s*[:#-]?\s*([A-Z0-9-]+)\b` of `GENERIC_INVOICE_REGEX`.
Returns (consumed length, capture).  The greedy `[:#-]?` backtracks to the
empty match when the capture after it fails; in that fallback the second
`\s*` is necessarily empty because the separator is not whitespace. -/
def genTail (v : Str) : Option (Nat × Str) :=
  let w1 := v.takeWhile isPyWs
  match v.drop w1.length with
  | [] => none
  | c :: v2 =>
    if sep2Class c then
      let w2 := v2.takeWhile isPyWs
      match capAt (v2.drop w2.length) with
      | some (cap, len) => some (w1.length + 1 + w2.length + len, cap)
      | none =>
        match capAt (c :: v2) with
        | some (cap, len) => some (w1.length + len, cap)
        | none => none
    else
      match capAt (c :: v2) with
      | some (cap, len) => some (w1.length + len, cap)
      | none => none

/-- The part of `GENERIC_INVOICE_REGEX` after the literal `Invoice`:
the greedy optional group `(?:\s+(?:Number|No\.|#))?` is tried first; its
alternatives are mutually exclusive at any position and `\s+` can only
match maximally (the keywords start with non-whitespace), so on failure
the whole group is dropped. -/
def genAfterKeyword (t : Str) : Option (Nat × Str) :=
  let viaGroup : Option (Nat × Str) :=
    let sp := t.takeWhile isPyWs
    if sp = [] then none
    else
      let u := t.drop sp.length
      let kwLen : Option Nat :=
        if ciStarts "NUMBER".toList u then some 6
        else if ciStarts "NO.".toList u then some 3
        else if (match u with | '#' :: _ => true | _ => false) then some 1
        else none
      match kwLen with
      | some k =>
        match genTail (u.drop k) with
        | some (n, cap) => some (sp.length + k + n, cap)
        | none => none
      | none => none
  match viaGroup with
  | some r => some r
  | none => genTail t

/-- `GENERIC_INVOICE_REGEX.finditer`, collecting `group(1)` of each match
(the match ends at the capture end; `\b` is zero-width). -/
def genFinditer : Nat → Option Char → Str → List Str
  | 0, _, _ => []
  | _, _, [] => []
  | fuel + 1, prev, c :: rest =>
    if bdryBefore prev ∧ ciStarts "INVOICE".toList (c :: rest) then
      match genAfterKeyword ((c :: rest).drop 7) with
      | some (n, cap) =>
        cap :: genFinditer fuel ((c :: rest).take (7 + n)).getLast? ((c :: rest).drop (7 + n))
      | none => genFinditer fuel (some c) rest
    else genFinditer fuel (some c) rest

/-- All `INVOICE_REGEX` matches of a description. -/
def invMatches (s : Str) : List Str := invFinditer s.length none s

/-- All `GENERIC_INVOICE_REGEX` captures of a description. -/
def genMatches (s : Str) : List Str := genFinditer s.length none s

/-! ### Tickets and the invoice-candidate extractor -/

/-- A ticket is the row dictionary handed to the agent: association list
from column name to string value; a missing key models an absent column. -/
abbrev Ticket := List (Str × Str)

/-- Python `ticket.get(key)`: first binding of the exact key. -/
def tget (t : Ticket) (k : Str) : Option Str :=
  (t.find? (fun p => p.1 == k)).map (fun p => p.2)

/-- Embedding of `INVOICE_FIELD_HINTS` (lines 96-103). -/
def INVOICE_FIELD_HINTS : List Str :=
  ["Invoice Number".toList, "Invoice".toList, "Invoice Reference".toList,
   "Reference Invoice".toList, "Invoice ID".toList, "Invoice #".toList]

/-- One iteration of the structured-field loop of
`extract_invoice_candidates`: the candidate appended for a field, if any
(`value` truthiness, normalization, `normalized` truthiness). -/
def fieldCand (t : Ticket) (field : Str) : Option Str :=
  match tget t field with
  | some v =>
    if v ≠ [] then
      match normalize_invoice_reference (some v) with
      | some w => if w ≠ [] then some w else none
      | none => none
    else none
  | none => none

/-- One iteration of either free-text loop: the candidate appended for a
regex match, if any. -/
def textCand (m : Str) : Option Str :=
  match normalize_invoice_reference (some m) with
  | some w => if w ≠ [] then some w else none
  | none => none

/-- `description = ticket.get("Description", "") or ""`. -/
def descOf (t : Ticket) : Str := (tget t "Description".toList).getD []

/-- The de-duplication loop at the end of `extract_invoice_candidates`:
`seen` set plus ordered output, appending a candidate only when it is
truthy and unseen.  Since seen and ordered always receive the same
elements, the single list `s` plays both roles. -/
def dedupLoop : List Str → List Str → List Str
  | s, [] => s
  | s, cand :: rest =>
    if cand ≠ [] ∧ cand ∉ s then dedupLoop (s ++ [cand]) rest else dedupLoop s rest

/-- Embedding of `extract_invoice_candidates` (lines 128-155): structured
fields first, then `INVOICE_REGEX` matches on the description, then
`GENERIC_INVOICE_REGEX` captures, then de-duplication. -/
def extract_invoice_candidates (t : Ticket) : List Str :=
  dedupLoop []
    ((genMatches (descOf t)).foldl (fun acc m => acc ++ (textCand m).toList)
      ((invMatches (descOf t)).foldl (fun acc m => acc ++ (textCand m).toList)
        (INVOICE_FIELD_HINTS.foldl (fun acc f => acc ++ (fieldCand t f).toList) [])))

/-! ### Approval-requirement classifier -/

/-- Embedding of `APPROVAL_KEYWORDS["ap"]` (lines 27-33). -/
def APPROVAL_KEYWORDS_ap : List Str :=
  ["validate vendor".toList, "vendor detail".toList,
   "early payment".toList, "invoice on hold".toList]

/-- Embedding of `APPROVAL_KEYWORDS["ar"]` (lines 34-40). -/
def APPROVAL_KEYWORDS_ar : List Str :=
  ["refund ticket".toList, "raise refund".toList, "investigate customer".toList,
   "cancellation reason".toList, "block invoice".toList]

/-- `str(ticket.get("Assigned Team", "")).lower()`. -/
def teamLowerOf (t : Ticket) : Str :=
  pyLower ((tget t "Assigned Team".toList).getD [])

/-- `str(ticket.get("Ticket Type", "")).lower()`. -/
def typeLowerOf (t : Ticket) : Str :=
  pyLower ((tget t "Ticket Type".toList).getD [])

/-- `str(ticket.get("Description", "")).lower()`. -/
def descLowerOf (t : Ticket) : Str :=
  pyLower ((tget t "Description".toList).getD [])

/-- Embedding of `TicketAIAgent.needs_manager_approval` (lines 372-386);
`matches(keywords)` is the `any` over substring tests on the lowered
description. -/
def needs_manager_approval (t : Ticket) : Bool :=
  if (pyIn "accounts payable".toList (typeLowerOf t) || pyIn "ap".toList (teamLowerOf t))
      && APPROVAL_KEYWORDS_ap.any (fun k => pyIn k (descLowerOf t)) then
    true
  else if (pyIn "accounts receivable".toList (typeLowerOf t) || pyIn "ar".toList (teamLowerOf t))
      && APPROVAL_KEYWORDS_ar.any (fun k => pyIn k (descLowerOf t)) then
    true
  else
    false

/-! ### SHA-256 and the approval token issuer

`generate_approval_token` (lines 168-172) hashes `f"{ticket_id}:{secret}"`
with `hashlib.sha256` and returns the hex digest.  SHA-256 is embedded
over `Nat` with explicit reduction modulo `2^32`; messages are byte lists
(UTF-8 encoded strings). -/

/-- Truncation to a 32-bit word. -/
def w32 (n : Nat) : Nat := n % 4294967296

/-- Right rotation of a 32-bit word. -/
def rotr32 (n x : Nat) : Nat := w32 ((x >>> n) ||| (x <<< (32 - n)))

/-- Bitwise complement of a 32-bit word. -/
def not32 (x : Nat) : Nat := 4294967295 ^^^ w32 x

def shaCh (x y z : Nat) : Nat := (x &&& y) ^^^ (not32 x &&& z)

def shaMaj (x y z : Nat) : Nat := (x &&& y) ^^^ (x &&& z) ^^^ (y &&& z)

def bigSigma0 (x : Nat) : Nat := rotr32 2 x ^^^ rotr32 13 x ^^^ rotr32 22 x

def bigSigma1 (x : Nat) : Nat := rotr32 6 x ^^^ rotr32 11 x ^^^ rotr32 25 x

def smallSigma0 (x : Nat) : Nat := rotr32 7 x ^^^ rotr32 18 x ^^^ (x >>> 3)

def smallSigma1 (x : Nat) : Nat := rotr32 17 x ^^^ rotr32 19 x ^^^ (x >>> 10)

/-- The 64 SHA-256 round constants. -/
def shaK : List Nat :=
  [1116352408, 1899447441, 3049323471, 3921009573, 961987163, 1508970993,
   2453635748, 2870763221, 3624381080, 310598401, 607225278, 1426881987,
   1925078388, 2162078206, 2614888103, 3248222580, 3835390401, 4022224774,
   264347078, 604807628, 770255983, 1249150122, 1555081692, 1996064986,
   2554220882, 2821834349, 2952996808, 3210313671, 3336571891, 3584528711,
   113926993, 338241895, 666307205, 773529912, 1294757372, 1396182291,
   1695183700, 1986661051, 2177026350, 2456956037, 2730485921, 2820302411,
   3259730800, 3345764771, 3516065817, 3600352804, 4094571909, 275423344,
   430227734, 506948616, 659060556, 883997877, 958139571, 1322822218,
   1537002063, 1747873779, 1955562222, 2024104815, 2227730452, 2361852424,
   2428436474, 2756734187, 3204031479, 3329325298]

/-- 8-byte big-endian encoding of the message bit length. -/
def be64 (n : Nat) : List Nat :=
  [n / 72057594037927936 % 256, n / 281474976710656 % 256,
   n / 1099511627776 % 256, n / 4294967296 % 256,
   n / 16777216 % 256, n / 65536 % 256, n / 256 % 256, n % 256]

/-- SHA-256 padding: `128`, zeros to 56 mod 64, 8-byte bit length. -/
def shaPad (msg : List Nat) : List Nat :=
  msg ++ 128 :: List.replicate ((64 - ((msg.length + 9) % 64)) % 64) 0 ++
    be64 (msg.length * 8)

/-- Big-endian 32-bit words from a byte list. -/
def toWordsBE : List Nat → List Nat
  | b0 :: b1 :: b2 :: b3 :: rest =>
    (b0 * 16777216 + b1 * 65536 + b2 * 256 + b3) :: toWordsBE rest
  | _ => []

/-- 16-word chunks (fuelled; the fuel is the list length). -/
def chunk16 : Nat → List Nat → List (List Nat)
  | 0, _ => []
  | _, [] => []
  | fuel + 1, ws => ws.take 16 :: chunk16 fuel (ws.drop 16)

/-- Message-schedule extension of a 16-word chunk to 64 words. -/
def shaExtend (ws : List Nat) : List Nat :=
  (List.range 48).foldl
    (fun acc _ =>
      let n := acc.length
      acc ++ [w32 (smallSigma1 (acc.getD (n - 2) 0) + acc.getD (n - 7) 0 +
        smallSigma0 (acc.getD (n - 15) 0) + acc.getD (n - 16) 0)])
    ws

/-- The eight working variables of the compression function. -/
structure ShaState where
  a : Nat
  b : Nat
  c : Nat
  d : Nat
  e : Nat
  f : Nat
  g : Nat
  h : Nat

/-- Initial hash value. -/
def shaInit : ShaState :=
  ⟨1779033703, 3144134277, 1013904242, 2773480762,
   1359893119, 2600822924, 528734635, 1541459225⟩

/-- One compression round; `kw` is the round constant plus schedule word. -/
def shaRound (st : ShaState) (kw : Nat) : ShaState :=
  let t1 := w32 (st.h + bigSigma1 st.e + shaCh st.e st.f st.g + kw)
  let t2 := w32 (bigSigma0 st.a + shaMaj st.a st.b st.c)
  ⟨w32 (t1 + t2), st.a, st.b, st.c, w32 (st.d + t1), st.e, st.f, st.g⟩

/-- Compression of one 16-word chunk into the running state. -/
def shaCompress (st : ShaState) (chunk : List Nat) : ShaState :=
  let kws := List.zipWith (fun k w => w32 (k + w)) shaK (shaExtend chunk)
  let r := kws.foldl shaRound st
  ⟨w32 (st.a + r.a), w32 (st.b + r.b), w32 (st.c + r.c), w32 (st.d + r.d),
   w32 (st.e + r.e), w32 (st.f + r.f), w32 (st.g + r.g), w32 (st.h + r.h)⟩

/-- Big-endian bytes of one 32-bit word. -/
def wordBytes (wd : Nat) : List Nat :=
  [wd / 16777216 % 256, wd / 65536 % 256, wd / 256 % 256, wd % 256]

/-- The eight words of the final hash state, in order. -/
def digestWords (st : ShaState) : List Nat :=
  [st.a, st.b, st.c, st.d, st.e, st.f, st.g, st.h]

/-- SHA-256 digest (32 bytes) of a byte-list message. -/
def sha256 (msg : List Nat) : List Nat :=
  (digestWords ((chunk16 (toWordsBE (shaPad msg)).length
    (toWordsBE (shaPad msg))).foldl shaCompress shaInit)).flatMap wordBytes

/-- Lower-case hex character of a nibble. -/
def hexChar (n : Nat) : Char :=
  if n < 10 then Char.ofNat (48 + n) else Char.ofNat (87 + n)

/-- `hexdigest()` of a byte list. -/
def hexDigest (bs : List Nat) : Str :=
  bs.foldr (fun bb acc => hexChar (bb / 16) :: hexChar (bb % 16) :: acc) []

/-- UTF-8 bytes of one character (model of Python `str.encode()`). -/
def utf8Bytes (c : Char) : List Nat :=
  let n := c.toNat
  if n < 128 then [n]
  else if n < 2048 then [192 + n / 64, 128 + n % 64]
  else if n < 65536 then [224 + n / 4096, 128 + n / 64 % 64, 128 + n % 64]
  else [240 + n / 262144, 128 + n / 4096 % 64, 128 + n / 64 % 64, 128 + n % 64]

/-- UTF-8 encoding of a string. -/
def utf8Encode (s : Str) : List Nat :=
  s.foldr (fun c acc => utf8Bytes c ++ acc) []

/-- The fallback shared secret `os.getenv("APPROVAL_SECRET",
"ey_approval_secret")` takes when the environment variable is unset. -/
def defaultApprovalSecret : Str := "ey_approval_secret".toList

/-- The digest bytes of `f"{ticket_id}:{secret}"`. -/
def tokenBytes (secret ticket_id : Str) : List Nat :=
  sha256 (utf8Encode (ticket_id ++ ':' :: secret))

/-- Embedding of `generate_approval_token` (lines 168-172): the
environment-sourced secret is passed explicitly. -/
def generate_approval_token (secret ticket_id : Str) : Str :=
  hexDigest (tokenBytes secret ticket_id)

/-- Modelled from the spec: the consuming endpoint (`app.py`, not under
`src/`) verifies a token by recompute-and-compare (spec 4.4: "`verify`
recomputes and compares"). -/
def verifyApprovalToken (secret ticket_id token : Str) : Bool :=
  generate_approval_token secret ticket_id == token

/-! ### External collaborators, effects and the per-ticket processing

`process_ticket` (lines 388-748) is embedded as a pure function over an
environment of oracles (record store, directory, document generators) and
a script of reasoning-service turns, producing the returned string and an
ordered trace of observable side effects: reasoning-service calls, record
updates (with the store's reported success) and outbound emails. -/

/-- A field value of a record update: string or boolean column. -/
inductive FieldVal where
  | s (v : Str)
  | b (v : Bool)
deriving DecidableEq

/-- Modelled from the spec: the `table_db` constant
`AUTO_STATUS_AUTO_RESOLVED` is not under `src/`; spec 4.6 records
`autoSolved=true` for categories 1 and 2. -/
def AUTO_STATUS_AUTO_RESOLVED : FieldVal := .b true

/-- A manager directory entry. -/
structure Manager where
  name : Str
  email : Str
deriving DecidableEq

/-- A user directory entry (`load_users()`; spec 6:
`listUsers() -> list<{name,role,team}>`). -/
structure User where
  name : Str
  role : Str
  team : Str
deriving DecidableEq

/-- One row of the ticket store as consulted by the reassignment handler
(`get_all_tickets_df()` restricted to the columns it reads). -/
structure Row where
  assignedTeam : Option Str
  userName : Str
  status : Str
deriving DecidableEq

/-- An invoice record: dictionary from column to value. -/
abbrev Invoice := List (Str × Str)

/-- The external collaborators of one `process_ticket` invocation. -/
structure Env where
  /-- result reported by every `update_multiple_fields` call -/
  updateOk : Bool
  /-- `get_manager_by_team` -/
  managerFor : Option Str → Option Manager
  /-- `get_user_email_by_name` -/
  emailForUser : Str → Option Str
  /-- `search_invoices` -/
  searchInvoices : List (Str × Str) → List Invoice
  /-- `load_users()` -/
  users : List User
  /-- `get_all_tickets_df()` -/
  tickets : List Row
  /-- `DOCUMENTS_AVAILABLE` -/
  documentsAvailable : Bool
  /-- `generate_invoice_copy_pdf` -/
  genCopy : Invoice → Str → Option Str
  /-- `generate_payment_confirmation_pdf` -/
  genPayment : Invoice → Str → Option Str
  /-- `generate_invoice_details_pdf` -/
  genDetails : Invoice → Str → Option Str
  /-- `datetime.now().strftime("%Y-%m-%d")` -/
  now : Str

/-- An observable side effect, in program order. -/
inductive Effect where
  | llmCall
  | update (ticketId : Str) (fields : List (Str × FieldVal)) (applied : Bool)
  | email (toAddr : Str) (subject : Str)
deriving DecidableEq

def Effect.isEmail : Effect → Bool
  | .email _ _ => true
  | _ => false

def Effect.isUpdate : Effect → Bool
  | .update _ _ _ => true
  | _ => false

/-- The emails of a trace. -/
def emailsOf (effs : List Effect) : List Effect := effs.filter Effect.isEmail

/-- The update dictionaries of a trace. -/
def updatesOf (effs : List Effect) : List (List (Str × FieldVal)) :=
  effs.filterMap (fun e => match e with | .update _ d _ => some d | _ => none)

/-- Dictionary lookup in an update's field list. -/
def fieldOf (d : List (Str × FieldVal)) (k : Str) : Option FieldVal :=
  (d.find? (fun p => p.1 == k)).map (fun p => p.2)

/-- `(Ticket Status, Ticket Closed Date)` of each update of a trace. -/
def updStatusSummary (effs : List Effect) : List (Option FieldVal × Option FieldVal) :=
  (updatesOf effs).map (fun d =>
    (fieldOf d "Ticket Status".toList, fieldOf d "Ticket Closed Date".toList))

/-- A tool invocation requested by the reasoning service. -/
inductive ToolCall where
  | search (args : List (Str × Str))
  | resolve (ticket_id : Str) (ai_response : Option Str) (auto_solved : Bool)
      (closure_type : Str) (document_type : Option Str)
  | reassign (ticket_id : Str) (target_team : Str) (reason : Option Str)
      (ai_response : Option Str)
deriving DecidableEq

def ToolCall.isSearch : ToolCall → Bool
  | .search _ => true
  | _ => false

/-- One reasoning-service turn: assistant text plus requested tool calls. -/
structure Turn where
  content : Str
  toolCalls : List ToolCall

/-- `_get_ticket_field` (lines 157-165): first field whose key, stripped
and lowered, matches the stripped and lowered target; keys must be truthy. -/
def getTicketField (t : Ticket) (target : Str) : Option Str :=
  if target = [] then none
  else
    (t.find? (fun p =>
      p.1 ≠ [] ∧ pyLower (pyStrip p.1) = pyLower (pyStrip target))).map (fun p => p.2)

/-- The rejected placeholder spellings of `get_requestor_email`. -/
def badEmailVals : List Str :=
  ["".toList, "nan".toList, "none".toList, "null".toList, "n/a".toList]

/-- `get_requestor_email` (lines 175-193): first candidate column whose
truthy value survives strip and the placeholder filter. -/
def get_requestor_email (t : Ticket) : Option Str :=
  let fields : List Str :=
    ["Requestor Email ID".toList, "Requestor Email".toList, "Requester Email".toList,
     "Submitter Email".toList, "Customer Email".toList, "Email".toList]
  let rec go : List Str → Option Str
    | [] => none
    | f :: fs =>
      match getTicketField t f with
      | some raw =>
        if raw ≠ [] then
          let cleaned := pyStrip raw
          if cleaned ≠ [] ∧ pyLower cleaned ∉ badEmailVals then some cleaned else go fs
        else go fs
      | none => go fs
  go fields

/-- The placeholder spellings rejected by `_safe_requestor_name`. -/
def badNameVals : List Str := ["nan".toList, "none".toList, "null".toList]

/-- `_safe_requestor_name` (lines 44-52). -/
def safeRequestorName (t : Ticket) : Str :=
  let raw :=
    match (tget t "Requestor ".toList).filter (fun v => v ≠ []) with
    | some v => v
    | none => ((tget t "Requestor".toList).filter (fun v => v ≠ [])).getD []
  let name := pyStrip raw
  if name ≠ [] ∧ pyLower name ∉ badNameVals then name else "Requester".toList

/-- Python truthiness of an optional list value (`None` and the empty
string or dictionary are falsy). -/
def optTruthy {α : Type} : Option (List α) → Bool
  | some v => !v.isEmpty
  | none => false

/-- `_resolve_invoice_data_for_document` (lines 349-370): prefer a truthy
cached search result, else query each extracted candidate in order. -/
def resolveInvoiceData (env : Env) (t : Ticket) (cached : Option Invoice) : Option Invoice :=
  match cached with
  | some inv =>
    if inv ≠ [] then some inv
    else resolveFromCandidates env (extract_invoice_candidates t)
  | none => resolveFromCandidates env (extract_invoice_candidates t)
where
  resolveFromCandidates (env : Env) : List Str → Option Invoice
    | [] => none
    | c :: cs =>
      match env.searchInvoices [("Invoice Number".toList, c)] with
      | r :: _ => some r
      | [] => resolveFromCandidates env cs

/-- The `needs_approval` update dictionary (lines 470-479). -/
def pendingUpdateDict (env : Env) (tid : Str) : List (Str × FieldVal) :=
  [("Ticket Status".toList, .s "Pending Manager Approval".toList),
   ("Admin Review Needed".toList, .s "Yes".toList),
   ("Auto Solved".toList, .b false),
   ("AI Response".toList, .s ("Ticket ".toList ++ tid ++
      " is pending manager review. We will notify you once a decision is made.".toList)),
   ("Ticket Updated Date".toList, .s env.now)]

/-- The closing update dictionary of categories 1 and 2
(lines 521-527 and 601-607). -/
def closedUpdateDict (env : Env) (ai : Str) : List (Str × FieldVal) :=
  [("Ticket Status".toList, .s "Closed".toList),
   ("Ticket Closed Date".toList, .s env.now),
   ("Auto Solved".toList, AUTO_STATUS_AUTO_RESOLVED),
   ("AI Response".toList, .s ai),
   ("Ticket Updated Date".toList, .s env.now)]

/-- The `resolve_ticket` handler (lines 451-636).  `tid` and `desc` are
the enclosing `process_ticket` locals (the tool call's own `ticket_id`
argument is not consulted by the handler).  Returns the handler's return
string and its effect trace. -/
def execResolve (env : Env) (t : Ticket) (tid desc : Str)
    (closure_type : Str) (ai_response : Option Str) (document_type : Option Str)
    (lastInv : Option Invoice) : Str × List Effect :=
  let ai := ai_response.getD "Ticket processed by AI.".toList
  let dty := document_type.getD "none".toList
  if closure_type = "needs_approval".toList then
    let emailEffs :=
      match env.managerFor (tget t "Assigned Team".toList) with
      | some m => [Effect.email m.email ("[APPROVAL REQUIRED] Ticket ".toList ++ tid)]
      | none => []
    (("Ticket ".toList ++ tid ++ ": needs_approval".toList),
      emailEffs ++ [Effect.update tid (pendingUpdateDict env tid) env.updateOk])
  else if closure_type = "with_document".toList then
    let upd := closedUpdateDict env ai
    let payload := resolveInvoiceData env t lastInv
    let attach : Option Str :=
      if env.documentsAvailable && optTruthy payload then
        match payload with
        | some inv =>
          if dty = "payment_confirmation".toList then env.genPayment inv desc
          else if dty = "invoice_details".toList then env.genDetails inv desc
          else env.genCopy inv desc
        | none => none
      else none
    let effs :=
      match get_requestor_email t with
      | some r =>
        [Effect.update tid upd env.updateOk,
         Effect.email r (if attach.isSome then
            "Ticket ".toList ++ tid ++ " - Closed (Document Attached)".toList
          else "Ticket ".toList ++ tid ++ " - Closed".toList)]
      | none => [Effect.update tid upd env.updateOk]
    (("Ticket ".toList ++ tid ++ ": with_document".toList), effs)
  else
    let upd := closedUpdateDict env ai
    let effs :=
      match get_requestor_email t with
      | some r =>
        [Effect.update tid upd env.updateOk,
         Effect.email r ("Ticket ".toList ++ tid ++ " - Resolved".toList)]
      | none => [Effect.update tid upd env.updateOk]
    (("Ticket ".toList ++ tid ++ ": without_document".toList), effs)

/-- Open-ticket workload of a directory name (lines 675-681):
rows whose stripped, lowered `User Name` equals the lowered name and whose
status is `open`. -/
def openLoadOf (rows : List Row) (name : Str) : Nat :=
  (rows.filter (fun r =>
    pyLower (pyStrip r.userName) = pyLower name ∧
      pyLower r.status = "open".toList)).length

/-- Specialist candidate names (lines 665-669): employees whose team
contains the lowered target code. -/
def specialistCandidates (users : List User) (rawTeam : Str) : List Str :=
  (users.filter (fun u =>
    pyLower u.role = "employee".toList ∧ pyIn (pyLower rawTeam) (pyLower u.team))).map
    (fun u => u.name)

/-- First-occurrence de-duplication (fuelled by the list length), as both
the workload dictionary's key set and the spec's description of candidate
lists ("duplicates removed while preserving first occurrence"). -/
def firstOccurrences : Nat → List Str → List Str
  | 0, _ => []
  | _, [] => []
  | fuel + 1, x :: xs => x :: firstOccurrences fuel (xs.filter (fun y => y ≠ x))

/-- First-occurrence de-duplication at its natural fuel. -/
def firstOcc (l : List Str) : List Str := firstOccurrences l.length l

/-- Python `min(it, key=f)`: left fold keeping the earlier element on
ties, so the first encountered minimum wins. -/
def foldlMinBy (f : Str → Nat) (x : Str) (xs : List Str) : Str :=
  xs.foldl (fun bb aa => if f aa < f bb then aa else bb) x

/-- `min(workload, key=workload.get)` over the workload dictionary built
from the candidate list (lines 674-682): dictionary keys are the
candidates de-duplicated in first-insertion order. -/
def pickSpecialist (users : List User) (rows : List Row) (rawTeam : Str) : Option Str :=
  match firstOcc (specialistCandidates users rawTeam) with
  | [] => none
  | x :: xs => some (foldlMinBy (openLoadOf rows) x xs)

/-- The `reassign_ticket_and_notify` handler (lines 647-746). -/
def execReassign (env : Env) (t : Ticket) (tid desc : Str)
    (target_team : Str) (reason : Option Str) (ai_response : Option Str) :
    Str × List Effect :=
  let rawTeam := pyUpper target_team
  let _reasonS := reason.getD "Billing specialist required".toList
  let ai := ai_response.getD ("Reassigned to ".toList ++ rawTeam ++ " specialist".toList)
  let allTeams := firstOcc (env.tickets.filterMap (fun r => r.assignedTeam))
  let matched := (allTeams.find? (fun tm => pyIn rawTeam (pyUpper tm))).getD rawTeam
  let specName := pickSpecialist env.users env.tickets rawTeam
  let specEmail := specName.bind env.emailForUser
  let upd : List (Str × FieldVal) :=
    [("Assigned Team".toList, .s matched),
     ("User Name".toList, .s (if optTruthy specName then specName.getD []
        else (tget t "User Name".toList).getD [])),
     ("Ticket Status".toList, .s "Open".toList),
     ("Ticket Updated Date".toList, .s env.now),
     ("AI Response".toList, .s ai),
     ("Auto Solved".toList, .b false)]
  if env.updateOk then
    let e1 :=
      match get_requestor_email t with
      | some r =>
        [Effect.email r ("Ticket ".toList ++ tid ++ " - Assigned to ".toList ++
          matched ++ " Specialist".toList)]
      | none => []
    let e2 :=
      if optTruthy specName && optTruthy specEmail then
        [Effect.email (specEmail.getD []) ("[NEW ASSIGNMENT] Ticket ".toList ++ tid ++
          " – Action Required".toList)]
      else []
    (("Ticket ".toList ++ tid ++ " reassigned to ".toList ++ matched ++
        " specialist: ".toList ++
        (if optTruthy specName then specName.getD [] else "unassigned".toList)),
      [Effect.update tid upd true] ++ e1 ++ e2)
  else
    ("Reassignment failed".toList, [Effect.update tid upd false])

/-- The inner loop over one turn's tool calls (lines 428-746): searches
update the invoice cache and continue; a resolving call returns
immediately (`Sum.inl`), honouring at most one resolving call. -/
def runToolCalls (env : Env) (t : Ticket) (tid desc : Str) :
    List ToolCall → Option Invoice → List Effect →
      Sum (Str × List Effect) (Option Invoice × List Effect)
  | [], inv, effs => .inr (inv, effs)
  | c :: cs, inv, effs =>
    match c with
    | .search args =>
      let inv' :=
        match env.searchInvoices args with
        | r :: _ => some r
        | [] => inv
      runToolCalls env t tid desc cs inv' effs
    | .resolve _ air _ ct dt =>
      let (res, newEffs) := execResolve env t tid desc ct air dt inv
      .inl (res, effs ++ newEffs)
    | .reassign _ tt rsn air =>
      let (res, newEffs) := execReassign env t tid desc tt rsn air
      .inl (res, effs ++ newEffs)

/-- The bounded conversation loop (lines 411-748): each turn contacts the
reasoning service (one `llmCall` effect), returns the free text when the
turn has no tool calls, dispatches otherwise. -/
def processLoop (env : Env) (t : Ticket) (tid desc : Str) (turns : Nat → Turn) :
    Nat → Nat → Option Invoice → List Effect → Str × List Effect
  | 0, _, _, effs => ("Max turns reached without resolution".toList, effs)
  | fuel + 1, idx, inv, effs =>
    let msg := turns idx
    let effs := effs ++ [Effect.llmCall]
    match msg.toolCalls with
    | [] =>
      ((if msg.content = [] then "No resolution reached.".toList else msg.content), effs)
    | calls =>
      match runToolCalls env t tid desc calls inv effs with
      | .inl done => done
      | .inr (inv', effs') => processLoop env t tid desc turns fuel (idx + 1) inv' effs'

/-- `str(ticket.get("Ticket ID"))`: a missing id prints as `"None"`. -/
def ticketIdOf (t : Ticket) : Str :=
  (tget t "Ticket ID".toList).getD "None".toList

/-- `str(ticket.get("Ticket Status", "Open")).lower()`. -/
def statusLowerOf (t : Ticket) : Str :=
  pyLower ((tget t "Ticket Status".toList).getD "Open".toList)

/-! ### Specification-side definitions for the extractor claims

These definitions follow the words of the spec sentences under scrutiny;
the claim theorems below compare them with the embedded source. -/

/-- The normalization steps exactly as claim C4 words them: uppercase,
strip internal whitespace (all of it) and `#`, then replace the literal
word `INVOICE` with `INV`, then the dash/numeric/absence rules. -/
def normalizeClaimStated (value : Option Str) : Option Str :=
  match value with
  | none => none
  | some v =>
    if v = [] ∨ pyStrip v = [] then none
    else
      let c1 := (pyUpper (pyStrip v)).filter (fun c => isPyWs c = false ∧ c ≠ '#')
      normalizeCore (pyReplace "INVOICE".toList "INV".toList c1)

/-- Claim C4 as amended: the `INVOICE` to `INV` replacement happens
before the stripping step, and only the space character (not arbitrary
whitespace) is stripped, together with `#`. -/
def normalizeAmendedSpec (value : Option Str) : Option Str :=
  match value with
  | none => none
  | some v =>
    if v = [] ∨ pyStrip v = [] then none
    else
      let c1 := pyReplace "INVOICE".toList "INV".toList (pyUpper (pyStrip v))
      normalizeCore ((c1.filter (fun c => c ≠ ' ')).filter (fun c => c ≠ '#'))

/-- Structured-field candidates in field-declaration order (spec 4.1). -/
def structuredCands (hints : List Str) (t : Ticket) : List Str :=
  hints.filterMap (fieldCand t)

/-- Normalized free-text `INV`-pattern candidates (spec 4.1). -/
def invTextCands (t : Ticket) : List Str :=
  (invMatches (descOf t)).filterMap textCand

/-- Normalized generic `Invoice`-pattern candidates (spec 4.1). -/
def genTextCands (t : Ticket) : List Str :=
  (genMatches (descOf t)).filterMap textCand

/-- The candidate list as the spec words it: structured-field matches
first, then `INV` free-text matches, then generic matches, duplicates
collapsed to first occurrence. -/
def extractSpecOrder (hints : List Str) (t : Ticket) : List Str :=
  firstOcc (structuredCands hints t ++ invTextCands t ++ genTextCands t)

/-- The five structured field names claim C5 lists (the source's
`INVOICE_FIELD_HINTS` additionally contains `"Reference Invoice"`). -/
def claimFieldHints : List Str :=
  ["Invoice Number".toList, "Invoice".toList, "Invoice Reference".toList,
   "Invoice ID".toList, "Invoice #".toList]

/-- Embedding of `TicketAIAgent.process_ticket` (lines 388-748): the
already-closed guard, then at most `max_turns = 6` reasoning turns. -/
def process_ticket (env : Env) (t : Ticket) (turns : Nat → Turn) : Str × List Effect :=
  if statusLowerOf t = "closed".toList then
    ("Ticket is already closed.".toList, [])
  else
    processLoop env t (ticketIdOf t)
      ((tget t "Description".toList).getD "No description provided.".toList) turns 6 0 none []

/-- A closed environment for concrete witnesses: every lookup misses and
the store reports success. -/
def sampleEnv : Env where
  updateOk := true
  managerFor := fun _ => none
  emailForUser := fun _ => none
  searchInvoices := fun _ => []
  users := []
  tickets := []
  documentsAvailable := false
  genCopy := fun _ _ => none
  genPayment := fun _ _ => none
  genDetails := fun _ _ => none
  now := "2026-10-12".toList

/-- An update effect whose store call reported failure. -/
def isFailedUpdate : Effect → Bool
  | .update _ _ false => true
  | _ => false

/-- The counterexample environment: the record store rejects every
update, the team has a manager. -/
def failEnv : Env :=
  { sampleEnv with
    updateOk := false
    managerFor := fun _ => some ⟨"Mia".toList, "mia@example.com".toList⟩ }

/-- `failEnv` with a store that accepts updates. -/
def okEnv : Env := { failEnv with updateOk := true }

/-- A ticket with a requestor email and an assigned team. -/
def tReq : Ticket :=
  [("Ticket ID".toList, "T1".toList),
   ("Assigned Team".toList, "AP Team".toList),
   ("Requestor Email ID".toList, "req@example.com".toList)]

/-- A ticket without any email column. -/
def tNoReq : Ticket := [("Ticket ID".toList, "T2".toList)]

/-! ## Sanity checks against the Python behaviour -/

example : normalize_invoice_reference (some "inv1016".toList) = some "INV-1016".toList := by decide

example : normalize_invoice_reference (some "Invoice #2044".toList) = some "INV-2044".toList := by decide

example : normalize_invoice_reference (some "".toList) = none := by decide

example : normalize_invoice_reference (some "  ".toList) = none := by decide

example : normalize_invoice_reference (some "2044".toList) = some "INV-2044".toList := by decide

example : normalize_invoice_reference (some "inv".toList) = some "INV".toList := by decide

example : normalize_invoice_reference (some "#".toList) = some "".toList := by decide

example : normalize_invoice_reference (some "XINVO ICE".toList) = some "XINVOICE".toList := by decide

example : normalize_invoice_reference (some "XINVOICE".toList) = some "XINV".toList := by decide

example : invMatches "inv 1016 and INV-2044".toList = ["inv 1016".toList, "INV-2044".toList] := by decide

example : invMatches "INVOICE".toList = ["INVOICE".toList] := by decide

example : invMatches "INV12_".toList = [] := by decide

example : invMatches "xINV9".toList = [] := by decide

example : invMatches "INV#77a INV".toList = ["INV#77a".toList] := by decide

example : invMatches "INV\t88".toList = ["INV\t88".toList] := by decide

example : genMatches "Invoice Number 123".toList = ["123".toList] := by decide

example : genMatches "Invoice No. 123".toList = ["123".toList] := by decide

example : genMatches "Invoice No 123".toList = ["No".toList] := by decide

example : genMatches "Invoice Number".toList = ["Number".toList] := by decide

example : genMatches "Invoice Number:".toList = ["Number".toList] := by decide

example : genMatches "Invoices 123".toList = ["s".toList] := by decide

example : genMatches "InvoiceNumber 5".toList = ["Number".toList] := by decide

example : genMatches "Invoice: 123".toList = ["123".toList] := by decide

example : genMatches "Invoice --123".toList = ["-123".toList] := by decide

example : genMatches "Invoice 123- x".toList = ["123".toList] := by decide

example : genMatches "Invoice -".toList = [] := by decide

example : genMatches "Invoice #123".toList = ["123".toList] := by decide

example : genMatches "Invoice  # 55".toList = ["55".toList] := by decide

example : genMatches "my Invoice foo Invoice bar9".toList = ["foo".toList, "bar9".toList] := by decide

example :
    extract_invoice_candidates
      [("Invoice".toList, "inv1016".toList),
       ("Description".toList, "copy of INV 1016 and Invoice 2044 please".toList)]
      = ["INV-1016".toList, "INV".toList, "INV-2044".toList] := by decide

example :
    extract_invoice_candidates [("Reference Invoice".toList, "1016".toList)]
      = ["INV-1016".toList] := by decide

example :
    needs_manager_approval
      [("Assigned Team".toList, "AP Team".toList),
       ("Description".toList, "Requesting Early Payment for vendor".toList)] = true := by decide

example :
    needs_manager_approval
      [("Assigned Team".toList, "AP Team".toList),
       ("Description".toList, "What is the due date?".toList)] = false := by decide

example :
    needs_manager_approval
      [("Assigned Team".toList, "AR Team".toList),
       ("Description".toList, "please make early payment".toList)] = false := by decide

/-! ## Supporting lemmas -/

theorem pyUpper_eq_nil {s : Str} : pyUpper s = [] ↔ s = [] := by
  simp [pyUpper]

theorem pyStrip_of_all_ws {s : Str} (h : ∀ c ∈ s, isPyWs c = true) :
    pyStrip s = [] := by
  unfold pyStrip
  rw [List.dropWhile_eq_nil_iff.2 h]
  simp

/-- On blank input (possibly empty, all whitespace) the normalizer is
`none` because upper-casing preserves emptiness of the stripped value. -/
theorem normalize_blank {v : Str} (h : ∀ c ∈ v, isPyWs c = true) :
    normalize_invoice_reference (some v) = none := by
  unfold normalize_invoice_reference
  by_cases hv : v = []
  · simp [hv]
  · simp only [if_neg hv]
    rw [if_pos (pyUpper_eq_nil.2 (pyStrip_of_all_ws h))]

/-! ## Claim C4 -/

/-- C4, counterexample.  The claim describes the cleaning as "uppercases,
strips internal whitespace and `#`, replaces the literal word INVOICE
with INV".  The code strips only the space character (a tab survives and
is neither stripped nor treated as a digit), and it performs the INVOICE
replacement before removing spaces (so a space-split INVOICE is not
replaced).  Both readings of the claim disagree with the code on the
inputs below. -/
theorem C4_counterexample :
    normalize_invoice_reference (some ['I', 'N', 'V', '\t', '7']) =
        some ['I', 'N', 'V', '-', '\t', '7'] ∧
      normalizeClaimStated (some ['I', 'N', 'V', '\t', '7']) = some "INV-7".toList ∧
      normalize_invoice_reference (some "INVO ICE".toList) = some "INV-OICE".toList ∧
      normalizeClaimStated (some "INVO ICE".toList) = some "INV".toList ∧
      normalize_invoice_reference (some ['I', 'N', 'V', '\t', '7']) ≠
        normalizeClaimStated (some ['I', 'N', 'V', '\t', '7']) ∧
      normalize_invoice_reference (some "INVO ICE".toList) ≠
        normalizeClaimStated (some "INVO ICE".toList) := by
  decide

/-- C4 (amended): `normalize_invoice_reference` uppercases the stripped
value, replaces the literal word INVOICE with INV, then strips internal
space characters and `#` (other whitespace survives); a cleaned value
starting with INV but not INV- receives the dash after leading dashes of
the remainder are stripped (empty remainder giving bare INV); a purely
numeric value is prefixed with INV-; empty or blank input yields `none`;
and `normalize("inv1016") = "INV-1016"`,
`normalize("Invoice #2044") = "INV-2044"`. -/
theorem C4_normalize_spec :
    (∀ v, normalize_invoice_reference v = normalizeAmendedSpec v) ∧
      normalize_invoice_reference (some "inv1016".toList) = some "INV-1016".toList ∧
      normalize_invoice_reference (some "Invoice #2044".toList) = some "INV-2044".toList ∧
      normalize_invoice_reference (some "".toList) = none ∧
      (∀ v, (∀ c ∈ v, isPyWs c = true) → normalize_invoice_reference (some v) = none) := by
  refine ⟨?_, by decide, by decide, by decide, fun v h => normalize_blank h⟩
  intro v
  match v with
  | none => rfl
  | some v =>
    simp only [normalize_invoice_reference, normalizeAmendedSpec]
    by_cases hv : v = []
    · simp [hv]
    · by_cases hs : pyStrip v = []
      · simp [hv, hs, pyUpper_eq_nil.2 hs, pyUpper]
      · rw [if_neg hv, if_neg (fun h => hs (pyUpper_eq_nil.1 h)),
          if_neg (by simp [hv, hs])]

/-- C4, witness for the hypothesis-bearing blank-input component. -/
theorem C4_normalize_spec_witness :
    normalize_invoice_reference (some [' ', '\t']) = none :=
  C4_normalize_spec.2.2.2.2 [' ', '\t'] (by decide)

/-! ## Claim C10: supporting lemmas -/

theorem char_toNat_ofNat_valid {n : Nat} (h : n.isValidChar) :
    (Char.ofNat n).toNat = n := by
  simp [Char.ofNat, dif_pos h, Char.ofNatAux, Char.toNat, UInt32.toNat,
    BitVec.toNat_ofNatLt]

theorem toUpper_toUpper (c : Char) : c.toUpper.toUpper = c.toUpper := by
  unfold Char.toUpper
  by_cases h : 97 ≤ c.toNat ∧ c.toNat ≤ 122
  · rw [if_pos h]
    have hv : (c.toNat - 32).isValidChar := Or.inl (by omega)
    rw [if_neg]
    rw [char_toNat_ofNat_valid hv]
    omega
  · rw [if_neg h, if_neg h]

theorem mem_pyReplaceFuel {old new : Str} :
    ∀ {fuel : Nat} {s : Str} {c : Char},
      c ∈ pyReplaceFuel old new fuel s → c ∈ s ∨ c ∈ new := by
  intro fuel
  induction fuel with
  | zero =>
    intro s c h
    cases s with
    | nil => simp [pyReplaceFuel] at h
    | cons x xs => exact Or.inl h
  | succ n ih =>
    intro s c h
    cases s with
    | nil => simp [pyReplaceFuel] at h
    | cons x xs =>
      simp only [pyReplaceFuel] at h
      split at h
      · rcases List.mem_append.1 h with h1 | h1
        · exact Or.inr h1
        · rcases ih h1 with h2 | h2
          · exact Or.inl (List.mem_cons_of_mem x (List.drop_subset _ _ h2))
          · exact Or.inr h2
      · rcases List.mem_cons.1 h with h1 | h1
        · exact Or.inl (h1 ▸ List.mem_cons_self x xs)
        · rcases ih h1 with h2 | h2
          · exact Or.inl (List.mem_cons_of_mem x h2)
          · exact Or.inr h2

theorem pyReplaceFuel_noop {old new : Str} :
    ∀ {fuel : Nat} {s : Str}, pyIn old s = false → pyReplaceFuel old new fuel s = s := by
  intro fuel
  induction fuel with
  | zero =>
    intro s _
    cases s <;> simp [pyReplaceFuel]
  | succ n ih =>
    intro s h
    cases s with
    | nil => simp [pyReplaceFuel]
    | cons x xs =>
      simp only [pyIn, Bool.or_eq_false_iff] at h
      simp only [pyReplaceFuel]
      rw [if_neg (fun hc => by simp [h.1] at hc)]
      rw [ih h.2]

/-- `str.replace` leaves a string without occurrences of `old` alone. -/
theorem pyReplace_noop {old new s : Str} (h : pyIn old s = false) :
    pyReplace old new s = s := pyReplaceFuel_noop h

theorem dropWhile_of_all_neg {p : Char → Bool} {s : Str}
    (h : ∀ c ∈ s, p c = false) : s.dropWhile p = s := by
  cases s with
  | nil => rfl
  | cons x xs =>
    rw [List.dropWhile_cons_of_neg]
    simp [h x (List.mem_cons_self x xs)]

theorem pyStrip_noop {s : Str} (h : ∀ c ∈ s, isPyWs c = false) : pyStrip s = s := by
  unfold pyStrip
  rw [dropWhile_of_all_neg h,
    dropWhile_of_all_neg (fun c hc => h c (List.mem_reverse.1 hc)), List.reverse_reverse]

theorem pyUpper_noop {s : Str} (h : ∀ c ∈ s, c.toUpper = c) : pyUpper s = s := by
  unfold pyUpper
  rw [List.map_congr_left h]
  simp

/-- A character of the token `INV` is a character of `INV-`. -/
theorem mem_inv_dash_of_mem_inv {c : Char} (h : c ∈ ("INV".toList : Str)) :
    c ∈ ("INV-".toList : Str) := by
  rcases (by simpa using h : c = 'I' ∨ c = 'N' ∨ c = 'V') with rfl | rfl | rfl <;> decide

/-- Character-level facts that every branch of `normalizeCore` carries
from the cleaned string to the output. -/
theorem normalizeCore_chars {P : Char → Prop} {c2 w : Str}
    (h : normalizeCore c2 = some w)
    (hc : ∀ c ∈ c2, P c) (hinv : ∀ c ∈ ("INV-".toList : Str), P c) :
    ∀ c ∈ w, P c := by
  unfold normalizeCore at h
  split at h
  · split at h
    · intro c hcw
      rw [Option.some.injEq] at h
      rw [← h] at hcw
      exact hinv c (mem_inv_dash_of_mem_inv hcw)
    · rw [Option.some.injEq] at h
      intro c hcw
      rw [← h] at hcw
      rcases List.mem_append.1 hcw with h1 | h1
      · exact hinv c h1
      · exact hc c (List.drop_subset 3 c2 ((List.dropWhile_sublist _).subset h1))
  · split at h
    · rw [Option.some.injEq] at h
      intro c hcw
      rw [← h] at hcw
      rcases List.mem_append.1 hcw with h1 | h1
      · exact hinv c h1
      · exact hc c h1
    · rw [Option.some.injEq] at h
      intro c hcw
      rw [← h] at hcw
      exact hc c hcw

/-- The characters of every `normalize_invoice_reference` output are
upper-case fixed points and are neither a space nor a `#`. -/
theorem normalize_chars {x : Option Str} {w : Str}
    (h : normalize_invoice_reference x = some w) :
    ∀ c ∈ w, c.toUpper = c ∧ c ≠ ' ' ∧ c ≠ '#' := by
  match x with
  | none => simp [normalize_invoice_reference] at h
  | some v =>
    simp only [normalize_invoice_reference] at h
    split at h
    · exact absurd h (by simp)
    · split at h
      · exact absurd h (by simp)
      · refine normalizeCore_chars h ?_ (by decide)
        intro c hc
        have h2 := List.mem_filter.1 hc
        have h3 := List.mem_filter.1 h2.1
        refine ⟨?_, by simpa using h3.2, by simpa using h2.2⟩
        rcases mem_pyReplaceFuel h3.1 with h4 | h4
        · rcases List.mem_map.1 h4 with ⟨a, _, rfl⟩
          exact toUpper_toUpper a
        · rcases (by simpa using h4 : c = 'I' ∨ c = 'N' ∨ c = 'V') with rfl | rfl | rfl <;> decide

/-- Every `normalizeCore` output is the bare token `INV`, or starts with
`INV-`, or neither starts with `INV` nor is purely numeric. -/
theorem normalizeCore_shape {c2 w : Str} (h : normalizeCore c2 = some w) :
    w = "INV".toList ∨ "INV-".toList.isPrefixOf w = true ∨
      (¬ ("INV".toList.isPrefixOf w = true) ∧ pyIsDigit w = false) := by
  unfold normalizeCore at h
  split at h
  · split at h
    · rw [Option.some.injEq] at h
      exact Or.inl h.symm
    · refine Or.inr (Or.inl ?_)
      rw [Option.some.injEq] at h
      rw [← h]
      exact List.isPrefixOf_iff_prefix.2 (List.prefix_append _ _)
  · rename_i hcond
    split at h
    · refine Or.inr (Or.inl ?_)
      rw [Option.some.injEq] at h
      rw [← h]
      exact List.isPrefixOf_iff_prefix.2 (List.prefix_append _ _)
    · rename_i hdig
      rw [Option.some.injEq] at h
      rw [← h]
      rcases Decidable.not_and_iff_or_not.1 hcond with h1 | h1
      · exact Or.inr (Or.inr ⟨h1, by simpa using hdig⟩)
      · exact Or.inr (Or.inl (Decidable.not_not.1 h1))

/-- A string starting with `INV-` is not purely numeric. -/
theorem not_digit_of_inv_dash {w : Str} (h : "INV-".toList.isPrefixOf w = true) :
    pyIsDigit w = false := by
  rcases List.isPrefixOf_iff_prefix.1 h with ⟨t, rfl⟩
  simp [pyIsDigit]

/-- `normalizeCore` fixes every string of one of the output shapes. -/
theorem normalizeCore_fix {w : Str}
    (h : w = "INV".toList ∨ "INV-".toList.isPrefixOf w = true ∨
      (¬ ("INV".toList.isPrefixOf w = true) ∧ pyIsDigit w = false)) :
    normalizeCore w = some w := by
  rcases h with rfl | h | ⟨h1, h2⟩
  · decide
  · unfold normalizeCore
    rw [if_neg (fun hc => hc.2 h), if_neg (by simp [not_digit_of_inv_dash h])]
  · unfold normalizeCore
    rw [if_neg (fun hc => h1 hc.1), if_neg (by simp [h2])]

/-- A non-`none` result of the normalizer factors through
`normalizeCore`. -/
theorem normalize_eq_core {x : Option Str} {w : Str}
    (h : normalize_invoice_reference x = some w) :
    ∃ c2, normalizeCore c2 = some w := by
  match x with
  | none => simp [normalize_invoice_reference] at h
  | some v =>
    simp only [normalize_invoice_reference] at h
    split at h
    · exact absurd h (by simp)
    · split at h
      · exact absurd h (by simp)
      · exact ⟨_, h⟩

/-- Nonempty whitespace-free `INVOICE`-free outputs of the normalizer are
fixed points: re-normalization strips, uppercases, replaces and filters
vacuously, and `normalizeCore` fixes every output shape. -/
theorem normalize_idem_aux {x : Option Str} {w : Str}
    (h : normalize_invoice_reference x = some w) (hne : w ≠ [])
    (hws : ∀ c ∈ w, isPyWs c = false)
    (hinv : pyIn "INVOICE".toList w = false) :
    normalize_invoice_reference (some w) = some w := by
  have hch := normalize_chars h
  have hupper : ∀ c ∈ w, Char.toUpper c = c := fun c hc => (hch c hc).1
  have hstrip : pyStrip w = w := pyStrip_noop hws
  simp only [normalize_invoice_reference]
  rw [if_neg hne, hstrip, pyUpper_noop hupper, if_neg hne, pyReplace_noop hinv,
    List.filter_eq_self.2
      (fun c hc => by simp [(hch c (List.mem_filter.1 hc).1).2.2]),
    List.filter_eq_self.2 (fun c hc => by simp [(hch c hc).2.1])]
  obtain ⟨c2, hc2⟩ := normalize_eq_core h
  exact normalizeCore_fix (normalizeCore_shape hc2)

/-! ## Shared structure lemmas for the extractor -/

theorem foldl_append_toList {α : Type} (g : α → Option Str) :
    ∀ (l : List α) (init : List Str),
      l.foldl (fun acc x => acc ++ (g x).toList) init = init ++ l.filterMap g := by
  intro l
  induction l with
  | nil => intro init; simp
  | cons x xs ih =>
    intro init
    rw [List.foldl_cons, ih, List.filterMap_cons]
    cases hx : g x <;> simp [List.append_assoc]

/-- The candidate list before de-duplication is the concatenation of the
three extraction stages. -/
theorem extract_eq_dedup_parts (t : Ticket) :
    extract_invoice_candidates t =
      dedupLoop [] (structuredCands INVOICE_FIELD_HINTS t ++
        invTextCands t ++ genTextCands t) := by
  unfold extract_invoice_candidates structuredCands invTextCands genTextCands
  rw [foldl_append_toList, foldl_append_toList, foldl_append_toList]
  simp [List.append_assoc]

theorem mem_of_mem_dedupLoop :
    ∀ {l : List Str} {s : List Str} {y : Str}, y ∈ dedupLoop s l → y ∈ s ∨ y ∈ l := by
  intro l
  induction l with
  | nil => intro s y h; exact Or.inl h
  | cons x xs ih =>
    intro s y h
    simp only [dedupLoop] at h
    split at h
    · rcases ih h with h1 | h1
      · rcases List.mem_append.1 h1 with h2 | h2
        · exact Or.inl h2
        · exact Or.inr (List.mem_cons.2 (Or.inl (by simpa using h2)))
      · exact Or.inr (List.mem_cons_of_mem x h1)
    · rcases ih h with h1 | h1
      · exact Or.inl h1
      · exact Or.inr (List.mem_cons_of_mem x h1)

theorem textCand_origin {m w : Str} (h : textCand m = some w) :
    ∃ x, normalize_invoice_reference x = some w ∧ w ≠ [] := by
  unfold textCand at h
  cases hn : normalize_invoice_reference (some m) with
  | none => rw [hn] at h; simp at h
  | some w0 =>
    rw [hn] at h
    dsimp only at h
    by_cases hw0 : w0 ≠ []
    · rw [if_pos hw0, Option.some.injEq] at h
      exact ⟨some m, h ▸ hn, h ▸ hw0⟩
    · rw [if_neg hw0] at h; simp at h

theorem fieldCand_origin {t : Ticket} {f w : Str} (h : fieldCand t f = some w) :
    ∃ x, normalize_invoice_reference x = some w ∧ w ≠ [] := by
  unfold fieldCand at h
  cases htg : tget t f with
  | none => rw [htg] at h; simp at h
  | some v =>
    rw [htg] at h
    dsimp only at h
    by_cases hv : v ≠ []
    · rw [if_pos hv] at h
      cases hn : normalize_invoice_reference (some v) with
      | none => rw [hn] at h; simp at h
      | some w0 =>
        rw [hn] at h
        dsimp only at h
        by_cases hw0 : w0 ≠ []
        · rw [if_pos hw0, Option.some.injEq] at h
          exact ⟨some v, h ▸ hn, h ▸ hw0⟩
        · rw [if_neg hw0] at h; simp at h
    · rw [if_neg hv] at h; simp at h

/-- Every extracted candidate is a nonempty output of the normalizer. -/
theorem extract_origin {t : Ticket} {w : Str}
    (h : w ∈ extract_invoice_candidates t) :
    ∃ x, normalize_invoice_reference x = some w ∧ w ≠ [] := by
  rw [extract_eq_dedup_parts] at h
  rcases mem_of_mem_dedupLoop h with h1 | h1
  · simp at h1
  · rcases List.mem_append.1 h1 with h2 | h2
    · rcases List.mem_append.1 h2 with h3 | h3
      · obtain ⟨f, _, hf⟩ := List.mem_filterMap.1 h3
        exact fieldCand_origin hf
      · obtain ⟨m, _, hm⟩ := List.mem_filterMap.1 h3
        exact textCand_origin hm
    · obtain ⟨m, _, hm⟩ := List.mem_filterMap.1 h2
      exact textCand_origin hm

/-! ## Claim C10 -/

/-- C10, counterexample.  `normalize_invoice_reference` is not idempotent
on all of its non-`none` outputs: the input `"XINVO ICE"` normalizes to
`"XINVOICE"` (space removal reassembles the word INVOICE), which
re-normalizes to `"XINV"`; and `"XINVOICE"` is produced as an extraction
candidate by a ticket whose `Invoice` field holds `"XINVO ICE"`, so not
every candidate is a fixed point either. -/
theorem C10_counterexample :
    normalize_invoice_reference (some "XINVO ICE".toList) = some "XINVOICE".toList ∧
      normalize_invoice_reference (some "XINVOICE".toList) = some "XINV".toList ∧
      some "XINV".toList ≠ some "XINVOICE".toList ∧
      "XINVOICE".toList ∈
        extract_invoice_candidates [("Invoice".toList, "XINVO ICE".toList)] := by
  decide

/-- C10 (amended): `normalize_invoice_reference` is idempotent on every
nonempty non-`none` output that contains no whitespace character and no
occurrence of the substring `INVOICE`; under the same proviso every
candidate produced by `extract_invoice_candidates` is a fixed point of
the normalizer.  (The proviso is forced: the code removes only spaces,
so a tab can survive into an output and be stripped differently on the
second pass, a removed space can reassemble the word INVOICE, which the
second pass replaces, and the output of `"#"` is the empty string, which
re-normalizes to `none`.) -/
theorem C10_normalize_idempotent :
    (∀ x w, normalize_invoice_reference x = some w → w ≠ [] →
      (∀ c ∈ w, isPyWs c = false) → pyIn "INVOICE".toList w = false →
      normalize_invoice_reference (some w) = some w) ∧
    (∀ t w, w ∈ extract_invoice_candidates t →
      (∀ c ∈ w, isPyWs c = false) → pyIn "INVOICE".toList w = false →
      normalize_invoice_reference (some w) = some w) := by
  refine ⟨fun x w h hne hws hinv => normalize_idem_aux h hne hws hinv, ?_⟩
  intro t w hw hws hinv
  obtain ⟨x, hx, hne⟩ := extract_origin hw
  exact normalize_idem_aux hx hne hws hinv

/-- C10, witness: the candidate `INV-1016` produced from `inv1016`
satisfies the provisos and is a fixed point. -/
theorem C10_normalize_idempotent_witness :
    normalize_invoice_reference (some "INV-1016".toList) = some "INV-1016".toList :=
  C10_normalize_idempotent.1 (some "inv1016".toList) "INV-1016".toList
    (by decide) (by decide) (by decide) (by decide)

/-! ## Claim C5 -/

theorem firstOccurrences_fuel :
    ∀ {fuel1 fuel2 : Nat} {l : List Str}, l.length ≤ fuel1 → l.length ≤ fuel2 →
      firstOccurrences fuel1 l = firstOccurrences fuel2 l := by
  intro fuel1
  induction fuel1 with
  | zero =>
    intro fuel2 l h1 _
    rw [List.length_eq_zero.1 (Nat.le_zero.1 h1)]
    cases fuel2 <;> rfl
  | succ n ih =>
    intro fuel2 l h1 h2
    cases l with
    | nil => cases fuel2 <;> rfl
    | cons x xs =>
      cases fuel2 with
      | zero => exact absurd h2 (by simp)
      | succ m =>
        simp only [firstOccurrences]
        rw [ih (Nat.le_trans (List.length_filter_le _ _) (Nat.le_of_succ_le_succ h1))
          (Nat.le_trans (List.length_filter_le _ _) (Nat.le_of_succ_le_succ h2))]

theorem firstOcc_cons (x : Str) (xs : List Str) :
    firstOcc (x :: xs) = x :: firstOcc (xs.filter (fun y => y ≠ x)) := by
  simp only [firstOcc, List.length_cons, firstOccurrences]
  rw [firstOccurrences_fuel (List.length_filter_le _ _) (Nat.le_refl _)]

/-- The seen-set loop of the source equals spec-style first-occurrence
de-duplication, relative to an already-seen prefix, provided no candidate
is the empty string. -/
theorem dedupLoop_eq :
    ∀ {l s : List Str}, (∀ x ∈ l, x ≠ []) →
      dedupLoop s l = s ++ firstOcc (l.filter (fun y => y ∉ s)) := by
  intro l
  induction l with
  | nil => intro s _; simp [dedupLoop, firstOcc, firstOccurrences]
  | cons x xs ih =>
    intro s h
    by_cases hx : x ∈ s
    · rw [show dedupLoop s (x :: xs) = dedupLoop s xs by
        simp only [dedupLoop]; rw [if_neg (fun hc => hc.2 hx)]]
      rw [ih (fun y hy => h y (List.mem_cons_of_mem x hy))]
      have : (x :: xs).filter (fun y => decide (y ∉ s)) =
          xs.filter (fun y => decide (y ∉ s)) := by
        rw [List.filter_cons_of_neg (by simpa using hx)]
      rw [this]
    · rw [show dedupLoop s (x :: xs) = dedupLoop (s ++ [x]) xs by
        simp only [dedupLoop]
        rw [if_pos ⟨h x (List.mem_cons_self x xs), hx⟩]]
      rw [ih (fun y hy => h y (List.mem_cons_of_mem x hy))]
      have hfc : (x :: xs).filter (fun y => decide (y ∉ s)) =
          x :: xs.filter (fun y => decide (y ∉ s)) :=
        List.filter_cons_of_pos (by simpa using hx)
      rw [hfc, firstOcc_cons]
      have hff : (xs.filter (fun y => decide (y ∉ s))).filter
            (fun y => decide (y ≠ x)) =
          xs.filter (fun y => decide (y ∉ s ++ [x])) := by
        rw [List.filter_filter]
        refine List.filter_congr (fun y _ => ?_)
        by_cases h1 : y ∈ s <;> by_cases h2 : y = x <;>
          simp [h1, h2, List.mem_append]
      rw [hff, List.append_assoc]
      rfl

/-- Every element of the three concatenated candidate stages is a
nonempty string. -/
theorem extract_parts_nonempty (t : Ticket) :
    ∀ x ∈ structuredCands INVOICE_FIELD_HINTS t ++ invTextCands t ++ genTextCands t,
      x ≠ [] := by
  intro x hx
  rcases List.mem_append.1 hx with h1 | h1
  · rcases List.mem_append.1 h1 with h2 | h2
    · obtain ⟨f, _, hf⟩ := List.mem_filterMap.1 h2
      obtain ⟨_, _, hne⟩ := fieldCand_origin hf
      exact hne
    · obtain ⟨m, _, hm⟩ := List.mem_filterMap.1 h2
      obtain ⟨_, _, hne⟩ := textCand_origin hm
      exact hne
  · obtain ⟨m, _, hm⟩ := List.mem_filterMap.1 h1
    obtain ⟨_, _, hne⟩ := textCand_origin hm
    exact hne

/-- C5, counterexample.  The claim's structured field-name list omits
`"Reference Invoice"`, which the source's `INVOICE_FIELD_HINTS` contains
(between `"Invoice Reference"` and `"Invoice ID"`): a ticket carrying
only that column yields a candidate under the code but none under the
claim's list. -/
theorem C5_counterexample :
    extract_invoice_candidates [("Reference Invoice".toList, "1016".toList)] =
        ["INV-1016".toList] ∧
      extractSpecOrder claimFieldHints [("Reference Invoice".toList, "1016".toList)] = [] ∧
      extract_invoice_candidates [("Reference Invoice".toList, "1016".toList)] ≠
        extractSpecOrder claimFieldHints [("Reference Invoice".toList, "1016".toList)] := by
  decide

/-- C5 (amended): with the source's six-name structured field list
(`"Invoice Number"`, `"Invoice"`, `"Invoice Reference"`,
`"Reference Invoice"`, `"Invoice ID"`, `"Invoice #"`),
`extract_invoice_candidates` returns exactly the normalized
structured-field matches in field-declaration order, followed by the
free-text `INV`-pattern matches, then the generic `Invoice`-pattern
matches, duplicates removed keeping first occurrences. -/
theorem C5_candidate_order (t : Ticket) :
    extract_invoice_candidates t = extractSpecOrder INVOICE_FIELD_HINTS t := by
  rw [extract_eq_dedup_parts, dedupLoop_eq (extract_parts_nonempty t)]
  rw [show ∀ l : List Str, l.filter (fun y => decide (y ∉ ([] : List Str))) = l from
    fun l => List.filter_eq_self.2 (fun a _ => by simp)]
  rfl

/-! ## Claim C6 -/

/-- The two-tier `if` of the classifier in boolean normal form. -/
theorem needs_manager_approval_eq (t : Ticket) :
    needs_manager_approval t =
      ((pyIn "accounts payable".toList (typeLowerOf t) ||
          pyIn "ap".toList (teamLowerOf t)) &&
        APPROVAL_KEYWORDS_ap.any (fun k => pyIn k (descLowerOf t)) ||
      (pyIn "accounts receivable".toList (typeLowerOf t) ||
          pyIn "ar".toList (teamLowerOf t)) &&
        APPROVAL_KEYWORDS_ar.any (fun k => pyIn k (descLowerOf t))) := by
  unfold needs_manager_approval
  cases h1 : ((pyIn "accounts payable".toList (typeLowerOf t) ||
      pyIn "ap".toList (teamLowerOf t)) &&
    APPROVAL_KEYWORDS_ap.any (fun k => pyIn k (descLowerOf t))) <;>
    cases h2 : ((pyIn "accounts receivable".toList (typeLowerOf t) ||
        pyIn "ar".toList (teamLowerOf t)) &&
      APPROVAL_KEYWORDS_ar.any (fun k => pyIn k (descLowerOf t))) <;>
    simp [h1, h2]

/-- C6: `needs_manager_approval` is true exactly when an AP marker in the
lowered ticket type or team (`"accounts payable"` in the type, or `"ap"`
in the team) coincides with an AP keyword in the lowered description, or
symmetrically for AR; in particular a ticket without AP markers never
triggers on AP keywords alone (an AR-team ticket with an AP-keyword
description and no AR keyword is not flagged). -/
theorem C6_approval_classifier :
    (∀ t : Ticket, needs_manager_approval t = true ↔
      ((pyIn "accounts payable".toList (typeLowerOf t) = true ∨
          pyIn "ap".toList (teamLowerOf t) = true) ∧
        ∃ k ∈ APPROVAL_KEYWORDS_ap, pyIn k (descLowerOf t) = true) ∨
      ((pyIn "accounts receivable".toList (typeLowerOf t) = true ∨
          pyIn "ar".toList (teamLowerOf t) = true) ∧
        ∃ k ∈ APPROVAL_KEYWORDS_ar, pyIn k (descLowerOf t) = true)) ∧
    (∀ t : Ticket, pyIn "accounts payable".toList (typeLowerOf t) = false →
      pyIn "ap".toList (teamLowerOf t) = false →
      (∀ k ∈ APPROVAL_KEYWORDS_ar, pyIn k (descLowerOf t) = false) →
      needs_manager_approval t = false) := by
  have hiff : ∀ t : Ticket, needs_manager_approval t = true ↔
      ((pyIn "accounts payable".toList (typeLowerOf t) = true ∨
          pyIn "ap".toList (teamLowerOf t) = true) ∧
        ∃ k ∈ APPROVAL_KEYWORDS_ap, pyIn k (descLowerOf t) = true) ∨
      ((pyIn "accounts receivable".toList (typeLowerOf t) = true ∨
          pyIn "ar".toList (teamLowerOf t) = true) ∧
        ∃ k ∈ APPROVAL_KEYWORDS_ar, pyIn k (descLowerOf t) = true) := by
    intro t
    rw [needs_manager_approval_eq]
    simp [List.any_eq_true]
  refine ⟨hiff, fun t h1 h2 h3 => ?_⟩
  rw [Bool.eq_false_iff]
  intro hc
  rcases (hiff t).1 hc with ⟨hm, _⟩ | ⟨_, k, hk, hd⟩
  · rcases hm with hm | hm
    · rw [h1] at hm; exact Bool.false_ne_true hm
    · rw [h2] at hm; exact Bool.false_ne_true hm
  · rw [h3 k hk] at hd; exact Bool.false_ne_true hd

/-- C6, witness: an AR-team ticket whose description contains the AP
keyword `early payment` (and no AR keyword) is not flagged, while the
general equivalence holds at an AP-team instance. -/
theorem C6_approval_classifier_witness :
    needs_manager_approval
      [("Assigned Team".toList, "AR Team".toList),
       ("Description".toList, "please make early payment".toList)] = false :=
  C6_approval_classifier.2
    [("Assigned Team".toList, "AR Team".toList),
     ("Description".toList, "please make early payment".toList)]
    (by decide) (by decide) (by decide)

/-! ## Claim C7 -/

/-- Python `min(_, key=f)` as a left fold: the result is a minimum, and
it is the first-encountered minimum (every element strictly before it in
the list has a strictly larger key). -/
theorem foldlMinBy_spec (f : Str → Nat) :
    ∀ (xs : List Str) (x : Str),
      (f (foldlMinBy f x xs) ≤ f x ∧ ∀ a ∈ xs, f (foldlMinBy f x xs) ≤ f a) ∧
      (foldlMinBy f x xs = x ∨
        ∃ pre post, xs = pre ++ foldlMinBy f x xs :: post ∧
          f (foldlMinBy f x xs) < f x ∧
          ∀ a ∈ pre, f (foldlMinBy f x xs) < f a) := by
  intro xs
  induction xs with
  | nil =>
    intro x
    exact ⟨⟨Nat.le_refl _, by simp⟩, Or.inl rfl⟩
  | cons y ys ih =>
    intro x
    have hstep : foldlMinBy f x (y :: ys) = foldlMinBy f (if f y < f x then y else x) ys := by
      simp [foldlMinBy]
    by_cases hy : f y < f x
    · rw [hstep, if_pos hy]
      obtain ⟨⟨hle, hall⟩, hor⟩ := ih y
      refine ⟨⟨Nat.le_trans hle (Nat.le_of_lt hy), fun a ha => ?_⟩, ?_⟩
      · rcases List.mem_cons.1 ha with rfl | ha
        · exact hle
        · exact hall a ha
      · rcases hor with heq | ⟨pre, post, hsplit, hltx, hpre⟩
        · exact Or.inr ⟨[], ys, by rw [heq]; simp, by rw [heq]; exact hy, by simp⟩
        · refine Or.inr ⟨y :: pre, post, by rw [List.cons_append, ← hsplit],
            Nat.lt_trans hltx hy, fun a ha => ?_⟩
          rcases List.mem_cons.1 ha with rfl | ha
          · exact hltx
          · exact hpre a ha
    · rw [hstep, if_neg hy]
      have hxy : f x ≤ f y := Nat.le_of_not_lt hy
      obtain ⟨⟨hle, hall⟩, hor⟩ := ih x
      refine ⟨⟨hle, fun a ha => ?_⟩, ?_⟩
      · rcases List.mem_cons.1 ha with rfl | ha
        · exact Nat.le_trans hle hxy
        · exact hall a ha
      · rcases hor with heq | ⟨pre, post, hsplit, hltx, hpre⟩
        · exact Or.inl heq
        · refine Or.inr ⟨y :: pre, post, by rw [List.cons_append, ← hsplit],
            hltx, fun a ha => ?_⟩
          rcases List.mem_cons.1 ha with rfl | ha
          · exact Nat.lt_of_lt_of_le hltx hxy
          · exact hpre a ha

/-- C7: whenever the reassignment handler selects a specialist, that
specialist is a candidate (directory employees whose team contains the
target code, de-duplicated in first-insertion order as the workload
dictionary's keys), its open-ticket load is minimal among all candidates,
and every candidate encountered before it has a strictly larger load —
the first-encountered minimum wins ties. -/
theorem C7_specialist_selection :
    ∀ (users : List User) (rows : List Row) (rawTeam m : Str),
      pickSpecialist users rows rawTeam = some m →
      ∃ pre post,
        firstOcc (specialistCandidates users rawTeam) = pre ++ m :: post ∧
          (∀ c ∈ firstOcc (specialistCandidates users rawTeam),
            openLoadOf rows m ≤ openLoadOf rows c) ∧
          (∀ c ∈ pre, openLoadOf rows m < openLoadOf rows c) := by
  intro users rows rawTeam m h
  unfold pickSpecialist at h
  cases hc : firstOcc (specialistCandidates users rawTeam) with
  | nil => rw [hc] at h; exact absurd h (by simp)
  | cons x xs =>
    rw [hc, Option.some.injEq] at h
    obtain ⟨⟨hle, hall⟩, hor⟩ := foldlMinBy_spec (openLoadOf rows) xs x
    rw [h] at hle hall hor
    rcases hor with heq | ⟨pre, post, hsplit, hltx, hpre⟩
    · refine ⟨[], xs, by rw [heq]; simp, fun c hcm => ?_, by simp⟩
      rcases List.mem_cons.1 hcm with rfl | hcm
      · rw [heq]
      · exact hall c hcm
    · refine ⟨x :: pre, post, by rw [hsplit, List.cons_append], fun c hcm => ?_,
        fun c hcm => ?_⟩
      · rcases List.mem_cons.1 hcm with rfl | hcm
        · exact Nat.le_of_lt hltx
        · exact hall c hcm
      · rcases List.mem_cons.1 hcm with rfl | hcm
        · exact hltx
        · exact hpre c hcm

/-- C7, witness: with workloads Alice = 2, Bob = 0, Carol = 0 (candidate
order Alice, Bob, Carol) the selection is Bob, the first-encountered
minimum, and the selection satisfies the minimality properties. -/
theorem C7_specialist_selection_witness :
    pickSpecialist
        [⟨"Alice".toList, "employee".toList, "AP Team".toList⟩,
         ⟨"Bob".toList, "employee".toList, "AP Team".toList⟩,
         ⟨"Carol".toList, "employee".toList, "AP Team".toList⟩]
        [⟨some "AP Team".toList, "Alice".toList, "Open".toList⟩,
         ⟨some "AP Team".toList, " alice ".toList, "open".toList⟩]
        "ap".toList = some "Bob".toList ∧
      ∃ pre post,
        firstOcc (specialistCandidates
          [⟨"Alice".toList, "employee".toList, "AP Team".toList⟩,
           ⟨"Bob".toList, "employee".toList, "AP Team".toList⟩,
           ⟨"Carol".toList, "employee".toList, "AP Team".toList⟩] "ap".toList) =
            pre ++ "Bob".toList :: post ∧
          (∀ c ∈ firstOcc (specialistCandidates
            [⟨"Alice".toList, "employee".toList, "AP Team".toList⟩,
             ⟨"Bob".toList, "employee".toList, "AP Team".toList⟩,
             ⟨"Carol".toList, "employee".toList, "AP Team".toList⟩] "ap".toList),
            openLoadOf
              [⟨some "AP Team".toList, "Alice".toList, "Open".toList⟩,
               ⟨some "AP Team".toList, " alice ".toList, "open".toList⟩] "Bob".toList ≤
              openLoadOf
                [⟨some "AP Team".toList, "Alice".toList, "Open".toList⟩,
                 ⟨some "AP Team".toList, " alice ".toList, "open".toList⟩] c) ∧
          (∀ c ∈ pre,
            openLoadOf
              [⟨some "AP Team".toList, "Alice".toList, "Open".toList⟩,
               ⟨some "AP Team".toList, " alice ".toList, "open".toList⟩] "Bob".toList <
              openLoadOf
                [⟨some "AP Team".toList, "Alice".toList, "Open".toList⟩,
                 ⟨some "AP Team".toList, " alice ".toList, "open".toList⟩] c) :=
  ⟨by decide,
    C7_specialist_selection
      [⟨"Alice".toList, "employee".toList, "AP Team".toList⟩,
       ⟨"Bob".toList, "employee".toList, "AP Team".toList⟩,
       ⟨"Carol".toList, "employee".toList, "AP Team".toList⟩]
      [⟨some "AP Team".toList, "Alice".toList, "Open".toList⟩,
       ⟨some "AP Team".toList, " alice ".toList, "open".toList⟩]
      "ap".toList "Bob".toList (by decide)⟩

/-! ## Claims C9 and C3 -/

/-- C9: a ticket whose status lowercases to `closed` is rejected before
the reasoning service is contacted — `process_ticket` returns the fixed
string with an empty effect trace: no service call, no record update, no
email. -/
theorem C9_closed_ticket_skipped :
    ∀ (env : Env) (t : Ticket) (turns : Nat → Turn),
      statusLowerOf t = "closed".toList →
      process_ticket env t turns = ("Ticket is already closed.".toList, []) := by
  intro env t turns h
  unfold process_ticket
  rw [if_pos h]

/-- C9, witness: an upper-case `CLOSED` status is rejected. -/
theorem C9_closed_ticket_skipped_witness :
    process_ticket sampleEnv [("Ticket Status".toList, "CLOSED".toList)]
        (fun _ => ⟨"hello".toList, [ToolCall.search []]⟩) =
      ("Ticket is already closed.".toList, []) :=
  C9_closed_ticket_skipped sampleEnv [("Ticket Status".toList, "CLOSED".toList)]
    (fun _ => ⟨"hello".toList, [ToolCall.search []]⟩) (by decide)

/-- A turn consisting solely of `search_invoices` calls adds no effect
and never resolves. -/
theorem runToolCalls_search_only (env : Env) (t : Ticket) (tid desc : Str) :
    ∀ (calls : List ToolCall) (inv : Option Invoice) (effs : List Effect),
      (∀ c ∈ calls, c.isSearch = true) →
      ∃ inv', runToolCalls env t tid desc calls inv effs = .inr (inv', effs) := by
  intro calls
  induction calls with
  | nil => intro inv effs _; exact ⟨inv, rfl⟩
  | cons c cs ih =>
    intro inv effs h
    cases c with
    | search args =>
      simp only [runToolCalls]
      exact ih _ effs (fun c hc => h c (List.mem_cons_of_mem _ hc))
    | resolve a b c d e =>
      exact absurd (h _ (List.mem_cons_self _ _)) (by simp [ToolCall.isSearch])
    | reassign a b c d =>
      exact absurd (h _ (List.mem_cons_self _ _)) (by simp [ToolCall.isSearch])

/-- If every turn in the window contains only search calls, the loop's
effect trace consists of reasoning-service calls only. -/
theorem processLoop_search_only (env : Env) (t : Ticket) (tid desc : Str)
    (turns : Nat → Turn) :
    ∀ (fuel idx : Nat) (inv : Option Invoice) (effs : List Effect),
      (∀ i, idx ≤ i → i < idx + fuel → ∀ c ∈ (turns i).toolCalls, c.isSearch = true) →
      (∀ e ∈ effs, e = Effect.llmCall) →
      ∀ e ∈ (processLoop env t tid desc turns fuel idx inv effs).2, e = Effect.llmCall := by
  intro fuel
  induction fuel with
  | zero => intro idx inv effs _ he; exact he
  | succ n ih =>
    intro idx inv effs hsearch he
    have he' : ∀ e ∈ effs ++ [Effect.llmCall], e = Effect.llmCall := by
      intro e hee
      rcases List.mem_append.1 hee with h1 | h1
      · exact he e h1
      · simpa using h1
    simp only [processLoop]
    cases hcalls : (turns idx).toolCalls with
    | nil => exact he'
    | cons c cs =>
      have hall : ∀ x ∈ (turns idx).toolCalls, x.isSearch = true :=
        hsearch idx (Nat.le_refl idx) (by omega)
      rw [hcalls] at hall
      obtain ⟨inv', hrun⟩ :=
        runToolCalls_search_only env t tid desc (c :: cs) inv
          (effs ++ [Effect.llmCall]) hall
      dsimp only
      rw [hrun]
      exact ih (idx + 1) inv' (effs ++ [Effect.llmCall])
        (fun i hi1 hi2 => hsearch i (by omega) (by omega)) he'

/-- C3: when no turn of the budgeted window contains a resolving tool
call (every tool call is a search — in particular when some turn has no
tool calls at all, which ends the loop with the assistant's free text),
`process_ticket` performs no record update and sends no email: its trace
contains reasoning-service calls only, and the ticket is left as it was.
If already the first turn is tool-free on a non-closed ticket, the
returned value is that turn's content (or the fixed fallback when the
content is empty). -/
theorem C3_no_resolution_no_effects :
    ∀ (env : Env) (t : Ticket) (turns : Nat → Turn),
      (∀ i, i < 6 → ∀ c ∈ (turns i).toolCalls, c.isSearch = true) →
      (∀ e ∈ (process_ticket env t turns).2, e = Effect.llmCall) ∧
      ((turns 0).toolCalls = [] → ¬ statusLowerOf t = "closed".toList →
        (process_ticket env t turns).1 =
          (if (turns 0).content = [] then "No resolution reached.".toList
           else (turns 0).content)) := by
  intro env t turns hsearch
  constructor
  · unfold process_ticket
    split
    · simp
    · exact processLoop_search_only env t _ _ turns 6 0 none []
        (fun i _ hi2 => hsearch i (by omega)) (by simp)
  · intro hempty hopen
    unfold process_ticket
    rw [if_neg hopen]
    simp only [processLoop]
    rw [hempty]

/-- C3, witness: a script that only ever searches exhausts the budget
with a pure trace of service calls. -/
theorem C3_no_resolution_no_effects_witness :
    (∀ i, i < 6 →
      ∀ c ∈ (Turn.mk "looking".toList [ToolCall.search []]).toolCalls, c.isSearch = true) ∧
      (∀ e ∈ (process_ticket sampleEnv [("Ticket ID".toList, "T9".toList)]
          (fun _ => ⟨"looking".toList, [ToolCall.search []]⟩)).2, e = Effect.llmCall) :=
  ⟨by decide,
    (C3_no_resolution_no_effects sampleEnv [("Ticket ID".toList, "T9".toList)]
      (fun _ => ⟨"looking".toList, [ToolCall.search []]⟩) (by decide)).1⟩

/-! ## Claim C2 -/

theorem updStatusSummary_append (a b : List Effect) :
    updStatusSummary (a ++ b) = updStatusSummary a ++ updStatusSummary b := by
  unfold updStatusSummary updatesOf
  rw [List.filterMap_append, List.map_append]

theorem updStatusSummary_emails {effs : List Effect}
    (h : ∀ e ∈ effs, e.isEmail = true) : updStatusSummary effs = [] := by
  unfold updStatusSummary updatesOf
  rw [List.filterMap_eq_nil_iff.2 (fun e he => ?_)]
  · rfl
  · cases e with
    | llmCall => rfl
    | update a b c => exact absurd (h _ he) (by simp [Effect.isEmail])
    | email a b => rfl

/-- C2: every dispatched resolution issues exactly one record update, and
its status fields are: `Closed` with the non-null closed date `env.now`
for closure types `without_document` and `with_document`; `Pending
Manager Approval` with no closed date for `needs_approval`; `Open` with
no closed date (never `Closed`) for a reassignment.  None of the three
`resolve_ticket` categories writes status `Open`. -/
theorem C2_dispatch_status :
    ∀ (env : Env) (t : Ticket) (tid desc : Str) (air dt : Option Str)
      (inv : Option Invoice) (tt : Str) (rsn : Option Str),
      updStatusSummary (execResolve env t tid desc "without_document".toList air dt inv).2 =
        [(some (.s "Closed".toList), some (.s env.now))] ∧
      updStatusSummary (execResolve env t tid desc "with_document".toList air dt inv).2 =
        [(some (.s "Closed".toList), some (.s env.now))] ∧
      updStatusSummary (execResolve env t tid desc "needs_approval".toList air dt inv).2 =
        [(some (.s "Pending Manager Approval".toList), none)] ∧
      updStatusSummary (execReassign env t tid desc tt rsn air).2 =
        [(some (.s "Open".toList), none)] := by
  intro env t tid desc air dt inv tt rsn
  refine ⟨?_, ?_, ?_, ?_⟩
  · unfold execResolve
    rw [if_neg (by decide), if_neg (by decide)]
    cases get_requestor_email t <;> rfl
  · unfold execResolve
    rw [if_neg (by decide), if_pos rfl]
    cases get_requestor_email t <;> rfl
  · unfold execResolve
    rw [if_pos rfl]
    cases env.managerFor (tget t "Assigned Team".toList) <;> rfl
  · cases hup : env.updateOk
    · simp only [execReassign]
      rw [hup]
      rfl
    · simp only [execReassign]
      rw [hup]
      cases hre : get_requestor_email t <;>
        cases hcond : (optTruthy (pickSpecialist env.users env.tickets (pyUpper tt)) &&
          optTruthy ((pickSpecialist env.users env.tickets (pyUpper tt)).bind
            env.emailForUser)) <;>
        rfl

/-! ## Claim C1 -/

/-- C1, counterexample.  With a record store that reports failure, the
`needs_approval` handler still emails the manager (indeed before even
attempting the update), and the `without_document` handler still emails
the requestor after the failed update: an email is sent for a ticket
whose record mutation fails, contradicting the claimed dichotomy for
`resolve_ticket` categories. -/
theorem C1_counterexample :
    failEnv.updateOk = false ∧
      (execResolve failEnv tReq "T1".toList [] "needs_approval".toList none none none).2 =
        [Effect.email "mia@example.com".toList "[APPROVAL REQUIRED] Ticket T1".toList,
         Effect.update "T1".toList (pendingUpdateDict failEnv "T1".toList) false] ∧
      ((execResolve failEnv tReq "T1".toList [] "needs_approval".toList none none none).2.any
        Effect.isEmail) = true ∧
      ((execResolve failEnv tReq "T1".toList [] "needs_approval".toList none none none).2.any
        isFailedUpdate) = true ∧
      ((execResolve failEnv tReq "T1".toList [] "without_document".toList none none none).2.any
        Effect.isEmail) = true ∧
      ((execResolve failEnv tReq "T1".toList [] "without_document".toList none none none).2.any
        isFailedUpdate) = true := by
  decide

/-- C1 (amended): the claimed dichotomy holds for
`reassign_ticket_and_notify` — on a failed update no notification is
attempted, on a successful update the record update comes first and is
followed only by notification attempts — and for every handler the
record update is attempted (exactly once) even when no notification
address can be determined; but for `resolve_ticket` notification is not
conditioned on the update result: categories 1 and 2 email the requestor
(when known) regardless of the reported update success, and category 3
emails the manager (when known) before the update is attempted. -/
theorem C1_update_email_coupling :
    ∀ (env : Env) (t : Ticket) (tid desc tt : Str) (rsn air dt : Option Str)
      (inv : Option Invoice),
      (env.updateOk = false → emailsOf (execReassign env t tid desc tt rsn air).2 = []) ∧
      (env.updateOk = true → ∃ d rest,
        (execReassign env t tid desc tt rsn air).2 = Effect.update tid d true :: rest ∧
          ∀ e ∈ rest, e.isEmail = true) ∧
      (∀ ct, (updatesOf (execResolve env t tid desc ct air dt inv).2).length = 1) ∧
      (get_requestor_email t = none →
        emailsOf (execResolve env t tid desc "without_document".toList air dt inv).2 = [] ∧
        emailsOf (execResolve env t tid desc "with_document".toList air dt inv).2 = []) ∧
      (∀ r, get_requestor_email t = some r →
        (execResolve env t tid desc "without_document".toList air dt inv).2 =
          [Effect.update tid
             (closedUpdateDict env (air.getD "Ticket processed by AI.".toList)) env.updateOk,
           Effect.email r ("Ticket ".toList ++ tid ++ " - Resolved".toList)]) ∧
      (∀ m, env.managerFor (tget t "Assigned Team".toList) = some m →
        (execResolve env t tid desc "needs_approval".toList air dt inv).2 =
          [Effect.email m.email ("[APPROVAL REQUIRED] Ticket ".toList ++ tid),
           Effect.update tid (pendingUpdateDict env tid) env.updateOk]) ∧
      (env.managerFor (tget t "Assigned Team".toList) = none →
        (execResolve env t tid desc "needs_approval".toList air dt inv).2 =
          [Effect.update tid (pendingUpdateDict env tid) env.updateOk]) ∧
      (∀ r, get_requestor_email t = some r →
        ∃ s, (execResolve env t tid desc "with_document".toList air dt inv).2 =
          [Effect.update tid
             (closedUpdateDict env (air.getD "Ticket processed by AI.".toList)) env.updateOk,
           Effect.email r s]) := by
  intro env t tid desc tt rsn air dt inv
  refine ⟨?_, ?_, ?_, ?_, ?_, ?_, ?_, ?_⟩
  · intro hup
    simp only [execReassign]
    rw [hup]
    rfl
  · intro hup
    simp only [execReassign]
    rw [hup]
    refine ⟨_, _, rfl, fun e he => ?_⟩
    rcases List.mem_append.1 he with h1 | h1
    · split at h1
      · rcases List.mem_singleton.1 h1 with rfl
        rfl
      · simp at h1
    · split at h1
      · rcases List.mem_singleton.1 h1 with rfl
        rfl
      · simp at h1
  · intro ct
    unfold execResolve
    by_cases h1 : ct = "needs_approval".toList
    · rw [if_pos h1]
      cases env.managerFor (tget t "Assigned Team".toList) <;> rfl
    · rw [if_neg h1]
      by_cases h2 : ct = "with_document".toList
      · rw [if_pos h2]
        cases get_requestor_email t <;> rfl
      · rw [if_neg h2]
        cases get_requestor_email t <;> rfl
  · intro hre
    constructor
    · unfold execResolve
      rw [if_neg (by decide), if_neg (by decide), hre]
      rfl
    · unfold execResolve
      rw [if_neg (by decide), if_pos rfl, hre]
      rfl
  · intro r hre
    unfold execResolve
    rw [if_neg (by decide), if_neg (by decide), hre]
  · intro m hm
    unfold execResolve
    rw [if_pos rfl, hm]
    rfl
  · intro hm
    unfold execResolve
    rw [if_pos rfl, hm]
    rfl
  · intro r hre
    unfold execResolve
    rw [if_neg (by decide), if_pos rfl, hre]
    exact ⟨_, rfl⟩

/-- C1, witness: the amended coupling instantiated — a failed reassign
sends nothing, a successful reassign updates first, resolve always
attempts exactly one update even without a requestor address, categories
1 and 2 update first and then email the known requestor even under a
failing store, and category 3 emails the manager before the failing
update. -/
theorem C1_update_email_coupling_witness :
    emailsOf (execReassign failEnv tReq "T1".toList [] "AP".toList none none).2 = [] ∧
      (∃ d rest,
        (execReassign okEnv tReq "T1".toList [] "AP".toList none none).2 =
          Effect.update "T1".toList d true :: rest ∧ ∀ e ∈ rest, e.isEmail = true) ∧
      (updatesOf (execResolve failEnv tNoReq "T2".toList [] "without_document".toList
        none none none).2).length = 1 ∧
      emailsOf (execResolve failEnv tNoReq "T2".toList [] "without_document".toList
        none none none).2 = [] ∧
      (execResolve failEnv tReq "T1".toList [] "without_document".toList
        none none none).2 =
        [Effect.update "T1".toList
           (closedUpdateDict failEnv "Ticket processed by AI.".toList) false,
         Effect.email "req@example.com".toList "Ticket T1 - Resolved".toList] ∧
      (execResolve failEnv tReq "T1".toList [] "needs_approval".toList none none none).2 =
        [Effect.email "mia@example.com".toList "[APPROVAL REQUIRED] Ticket T1".toList,
         Effect.update "T1".toList (pendingUpdateDict failEnv "T1".toList) false] ∧
      (∃ s, (execResolve failEnv tReq "T1".toList [] "with_document".toList
          none none none).2 =
        [Effect.update "T1".toList
           (closedUpdateDict failEnv "Ticket processed by AI.".toList) false,
         Effect.email "req@example.com".toList s]) := by
  refine ⟨(C1_update_email_coupling failEnv tReq "T1".toList [] "AP".toList
      none none none none).1 (by decide),
    (C1_update_email_coupling okEnv tReq "T1".toList [] "AP".toList
      none none none none).2.1 (by decide),
    (C1_update_email_coupling failEnv tNoReq "T2".toList [] "AP".toList
      none none none none).2.2.1 "without_document".toList,
    ((C1_update_email_coupling failEnv tNoReq "T2".toList [] "AP".toList
      none none none none).2.2.2.1 (by decide)).1, ?_, ?_, ?_⟩
  · have h := (C1_update_email_coupling failEnv tReq "T1".toList [] "AP".toList
      none none none none).2.2.2.2.1 "req@example.com".toList (by decide)
    simpa [failEnv] using h
  · have h := (C1_update_email_coupling failEnv tReq "T1".toList [] "AP".toList
      none none none none).2.2.2.2.2.1 ⟨"Mia".toList, "mia@example.com".toList⟩ (by decide)
    simpa using h
  · obtain ⟨s, hs⟩ := (C1_update_email_coupling failEnv tReq "T1".toList [] "AP".toList
      none none none none).2.2.2.2.2.2.2 "req@example.com".toList (by decide)
    exact ⟨s, by simpa [failEnv] using hs⟩

/-! ## Claim C8 -/

theorem sha256_length (m : List Nat) : (sha256 m).length = 32 := rfl

theorem sha256_bytes_lt (m : List Nat) : ∀ b ∈ sha256 m, b < 256 := by
  intro b hb
  obtain ⟨wd, _, hwd⟩ := List.mem_flatMap.1 hb
  rcases (by simpa [wordBytes] using hwd :
      b = wd / 16777216 % 256 ∨ b = wd / 65536 % 256 ∨
        b = wd / 256 % 256 ∨ b = wd % 256) with rfl | rfl | rfl | rfl <;>
    exact Nat.mod_lt _ (by omega)

/-- C8, counterexample.  `verify(id, issue(otherId)) == false` cannot
hold for every pair of distinct ids: ids range over infinitely many
strings while tokens are digests of 32 bytes, so some two distinct ids
share a token (pigeonhole), and verification accepts the other's token
there.  The proof derives `Finite ℕ` from the assumed injectivity. -/
theorem C8_counterexample :
    ¬ (∀ id otherId : Str, id ≠ otherId →
        verifyApprovalToken defaultApprovalSecret id
          (generate_approval_token defaultApprovalSecret otherId) = false) := by
  intro hAll
  have hbytes : Function.Injective
      (fun n : ℕ => tokenBytes defaultApprovalSecret (List.replicate n 'a')) := by
    intro n m hnm
    by_contra hne
    have hids : List.replicate n 'a' ≠ List.replicate m 'a' := by
      intro h
      exact hne (by simpa using congrArg List.length h)
    have hv := hAll _ _ hids
    unfold verifyApprovalToken at hv
    rw [show generate_approval_token defaultApprovalSecret (List.replicate n 'a') =
        generate_approval_token defaultApprovalSecret (List.replicate m 'a') from
      congrArg hexDigest hnm] at hv
    simp at hv
  have hlen : ∀ n : ℕ,
      (tokenBytes defaultApprovalSecret (List.replicate n 'a')).length = 32 :=
    fun n => sha256_length _
  let g : ℕ → (Fin 32 → Fin 256) := fun n i =>
    ⟨(tokenBytes defaultApprovalSecret (List.replicate n 'a')).get
        ⟨i.val, by rw [hlen n]; exact i.isLt⟩, by
      exact sha256_bytes_lt _ _ (List.get_mem _ _ _)⟩
  have hg : Function.Injective g := by
    intro n m hnm
    refine hbytes (List.ext_get (by rw [hlen n, hlen m]) ?_)
    intro i h1 h2
    have := congrFun hnm ⟨i, by rw [← hlen n]; exact h1⟩
    simpa [g] using congrArg Fin.val this
  have : Finite ℕ := Finite.of_injective g hg
  exact not_finite ℕ

/-- C8 (amended): token issuance is deterministic (a pure function of
secret and id) and recompute-and-compare verification accepts every
genuinely issued token; distinct ids always hash distinct preimages
`id:secret`, so `verify(id, issue(otherId))` can only return true on a
SHA-256 collision of those distinct preimages — which, by the
counterexample's pigeonhole argument, must happen for some pair, so the
universally quantified `== false` form of the claim is dropped. -/
theorem C8_token_scheme :
    ∀ (secret id otherId : Str),
      generate_approval_token secret id = generate_approval_token secret id ∧
      verifyApprovalToken secret id (generate_approval_token secret id) = true ∧
      (id ≠ otherId → id ++ ':' :: secret ≠ otherId ++ ':' :: secret) := by
  intro s id o
  refine ⟨rfl, ?_, ?_⟩
  · unfold verifyApprovalToken
    simp
  · intro hne heq
    exact hne (List.append_cancel_right heq)

/-- C8, witness: the amended statement at the default secret and two
concrete distinct ids. -/
theorem C8_token_scheme_witness :
    verifyApprovalToken defaultApprovalSecret "TCK-1".toList
        (generate_approval_token defaultApprovalSecret "TCK-1".toList) = true ∧
      "TCK-1".toList ++ ':' :: defaultApprovalSecret ≠
        "TCK-2".toList ++ ':' :: defaultApprovalSecret :=
  ⟨(C8_token_scheme defaultApprovalSecret "TCK-1".toList "TCK-2".toList).2.1,
    (C8_token_scheme defaultApprovalSecret "TCK-1".toList "TCK-2".toList).2.2 (by decide)⟩

end QMA

